import Mathlib

/-!
concourse-terraform-resource: a shallow embedding of the put and check pipelines.

The Go sources embedded here are `internal/types/types.go`,
`internal/terraform/out.go`, `internal/terraform/ansible.go` and
`internal/terraform/check.go`.

Conventions.
* A Go `error` result is a `Result`: `ok v`, `err msg` (a returned error with its
  message) or `abort msg` (a run-time panic or a `log.Fatalf` exit).
* Third-party and standard-library behaviour the code calls into (the bloblang
  evaluator, `gabs.ParseJSON`, `os.Environ`, map iteration order, the file
  system, the child process) is taken as a parameter, see `Extern` and `World`.
* A Go map is an association list (`GoMap`); a nil map is `none`.
* JSON values are trees (`JVal`); the extra-vars document (`gabs.Container`) is
  an association list of top-level keys (`Doc`).
-/

namespace ConcourseTerraform

/-! ## Results -/

/-- Outcome of a Go call that returns `(value, error)`. -/
inductive Result (α : Type) where
  | ok (v : α)
  | err (msg : String)
  | abort (msg : String)
  deriving Repr

/-! ## types.go -/

/-- Go `map[string]string` contents, in some order. -/
abbrev GoMap := List (String × String)

/-- The assignment `m[k] = v` on a Go map. -/
def GoMap.set : GoMap → String → String → GoMap
  | [], k, v => [(k, v)]
  | (k0, v0) :: rest, k, v =>
    if k0 = k then (k, v) :: rest else (k0, v0) :: GoMap.set rest k v

/-- The lookup `m[k]` on a Go map. -/
def GoMap.get : GoMap → String → Option String
  | [], _ => none
  | (k0, v0) :: rest, k => if k0 = k then some v0 else GoMap.get rest k

/-- Environment describes the runtime environment provided by concourse. -/
structure Environment where
  ID : String
  Name : String
  Job : String
  Pipeline : String
  Team : String
  ATCExternalURL : String
  deriving Repr, DecidableEq

/-- Storage describes resource storage configuration. -/
structure Storage where
  AWSAccessKeyID : String
  AWSSecretAccessKey : String
  Bucket : String
  Key : String
  Region : String
  deriving Repr, DecidableEq

/-- VaultSource describes required vault runtime configuration. -/
structure VaultSource where
  Addr : String
  RoleID : String
  SecretID : String
  deriving Repr, DecidableEq

/-- Source describes the resource configuration. -/
structure Source where
  Component : String
  Envs : Option GoMap
  PrivateKey : String
  Storage : Storage
  Vault : VaultSource
  deriving Repr, DecidableEq

/-- Version describes a Concourse version. -/
structure Version where
  Key : String
  VersionID : String
  deriving Repr, DecidableEq

/-- OutParams describes job-level configuration for a put operation.
`Destroy` is read by `injectExtraVars` (`req.Params.Destroy`) and listed by the
specification among the flags of the put parameters; it is a boolean
passthrough. -/
structure OutParams where
  Context : String
  Dir : String
  Envs : Option GoMap
  InputMapping : String
  PlanOnly : Bool
  Destroy : Bool
  PrivateKey : String
  ReleaseVersion : String
  VarFiles : List String
  VarsMapping : String
  Workspace : String
  deriving Repr, DecidableEq

/-- OutRequest describes the input to a put operation. -/
structure OutRequest where
  Source : Source
  Params : OutParams
  deriving Repr, DecidableEq

/-- Validate storage configuration (`Storage.Validate`); `none` is a nil error. -/
def Storage.Validate (s : Storage) : Option String :=
  if s.AWSAccessKeyID = "" then some "missing aws_access_key_id"
  else if s.AWSSecretAccessKey = "" then some "missing aws_secret_access_key"
  else if s.Bucket = "" then some "missing bucket"
  else if s.Region = "" then some "missing region"
  else none

/-- Validate vault configuration (`VaultSource.Validate`). -/
def VaultSource.Validate (s : VaultSource) : Option String :=
  if s.Addr = "" then some "missing vault addr"
  else if s.RoleID = "" then some "missing vault role_id"
  else if s.SecretID = "" then some "missing vault secret_id"
  else none

/-- Validate resource runtime configuration (`Source.Validate`). -/
def Source.Validate (s : Source) : Option String :=
  match s.Vault.Validate with
  | some e => some ("invalid vault config: " ++ e)
  | none =>
    match s.Storage.Validate with
    | some e => some ("invalid storage config: " ++ e)
    | none => none

/-- AssignFallbackValues assigns fallback values for Component and Storage.Key
based on runtime configuration. The Go method mutates its receiver; here the
mutated Source is returned. -/
def Source.AssignFallbackValues (s : Source) (team component : String) : Source :=
  let s1 : Source := if s.Component = "" then { s with Component := component } else s
  if s1.Storage.Key = "" then
    { s1 with Storage :=
        { s1.Storage with
          Key := team ++ "/" ++ s1.Component ++ "/concourse-terraform-resource/version.tgz" } }
  else s1

/-- The statement `req.Source.AssignFallbackValues(team, pipeline)` on a request
held by pointer: the request with its Source replaced by the mutated one. -/
def OutRequest.assignFallback (req : OutRequest) (team pipeline : String) : OutRequest :=
  { req with Source := req.Source.AssignFallbackValues team pipeline }

/-- Validate out parameters (`OutParams.Validate`). -/
def OutParams.Validate (p : OutParams) : Option String :=
  if p.Context = "" then some "missing required parameter (context)"
  else if p.Dir = "" then some "missing required parameter (dir)"
  else none

/-- Validate out request (`OutRequest.Validate`). -/
def OutRequest.Validate (r : OutRequest) : Option String :=
  match r.Source.Validate with
  | some e => some ("invalid source: " ++ e)
  | none =>
    match r.Params.Validate with
    | some e => some ("invalid params: " ++ e)
    | none => none

/-- Envs returns the combined sum of env vars (`OutRequest.Envs`). The Go map
`r.Source.Envs` is written in place when it is not nil, so the request after the
call is returned with the combined map. The entries of `Params.Envs` are visited
in the order `order` chooses (Go leaves map iteration order unspecified). -/
def OutRequest.Envs (order : GoMap → GoMap) (r : OutRequest) : GoMap × OutRequest :=
  let envs : GoMap :=
    match r.Source.Envs with
    | none => []
    | some m => m
  let envs : GoMap :=
    match r.Params.Envs with
    | none => envs
    | some p =>
      if p.length > 0 then (order p).foldl (fun m kv => GoMap.set m kv.1 kv.2) envs else envs
  match r.Source.Envs with
  | none => (envs, r)
  | some _ => (envs, { r with Source := { r.Source with Envs := some envs } })

/-- PrivateKey extracts private key (`OutRequest.PrivateKey`). -/
def OutRequest.PrivateKey (r : OutRequest) : String × Bool :=
  if r.Params.PrivateKey ≠ "" then (r.Params.PrivateKey, true)
  else if r.Source.PrivateKey ≠ "" then (r.Source.PrivateKey, true)
  else ("", false)

/-! ## Standard-library helpers: `strings.HasPrefix(s, "/")` and `path.Join` -/

/-- The test `strings.HasPrefix(s, "/")`. -/
def hasLeadingSlash (s : String) : Bool :=
  match s.data with
  | c :: _ => c == '/'
  | [] => false

/-- Split a path at every slash (never returns the empty list). -/
def splitSlash : List Char → List (List Char)
  | [] => [[]]
  | c :: cs =>
    match splitSlash cs with
    | [] => [[]]
    | seg :: segs => if c = '/' then [] :: seg :: segs else (c :: seg) :: segs

/-- One path element processed by `path.Clean`; `stack` holds the elements kept
so far, innermost first. Empty and `.` elements are dropped, `..` removes the
element before it, is dropped at the root, and is kept at the start of a
relative path. -/
def cleanStep (rooted : Bool) (stack : List (List Char)) (c : List Char) : List (List Char) :=
  if c = [] ∨ c = ['.'] then stack
  else if c = ['.', '.'] then
    match stack with
    | top :: rest => if top = ['.', '.'] then c :: stack else rest
    | [] => if rooted then [] else [c]
  else c :: stack

/-- Go `path.Clean`: the shortest path name equivalent to `p` by purely lexical
processing. -/
def pathClean (p : String) : String :=
  let rooted : Bool := hasLeadingSlash p
  let kept := ((splitSlash p.data).foldl (cleanStep rooted) []).reverse
  let body : List Char := List.intercalate ['/'] kept
  let out : List Char := if rooted then '/' :: body else body
  if out = [] then "." else String.mk out

/-- Go `path.Join` on two elements: empty elements are ignored, the rest are
joined with a slash and the result is cleaned; all elements empty gives `""`. -/
def pathJoin (a b : String) : String :=
  if a = "" ∧ b = "" then ""
  else if a = "" then pathClean b
  else if b = "" then pathClean a
  else pathClean (a ++ "/" ++ b)

/-! ## JSON values and the extra-vars document (gabs) -/

/-- A JSON value. Numbers carry their literal text. -/
inductive JVal where
  | null
  | bool (b : Bool)
  | num (lit : String)
  | str (s : String)
  | arr (items : List JVal)
  | obj (fields : List (String × JVal))

/-- The top-level object of a `gabs.Container` created by `gabs.New()`. -/
abbrev Doc := List (String × JVal)

/-- The document without the top-level key `key`. -/
def Doc.erase : Doc → String → Doc
  | [], _ => []
  | (k0, v0) :: rest, key =>
    if k0 = key then Doc.erase rest key else (k0, v0) :: Doc.erase rest key

/-- The call `extraVars.Set(value, key)` with a one-element path: the last write
to a key wins. -/
def Doc.Set (d : Doc) (value : JVal) (key : String) : Doc :=
  (key, value) :: d.erase key

/-- Value stored under a top-level key, `none` when the key is absent. -/
def Doc.get : Doc → String → Option JVal
  | [], _ => none
  | (k0, v0) :: rest, k => if k0 = k then some v0 else Doc.get rest k

/-- JSON encoding of a `Storage` value, by its struct tags. -/
def Storage.toJSON (s : Storage) : JVal :=
  .obj [("aws_access_key_id", .str s.AWSAccessKeyID),
        ("aws_secret_access_key", .str s.AWSSecretAccessKey),
        ("bucket", .str s.Bucket),
        ("key", .str s.Key),
        ("region", .str s.Region)]

/-- JSON encoding of a `Version` value, by its struct tags. -/
def Version.toJSON (v : Version) : JVal :=
  .obj [("key", .str v.Key), ("version_id", .str v.VersionID)]

/-! ## The bloblang evaluator and other collaborators -/

/-- Raw bytes of one message part. -/
abbrev Part := String

/-- A bloblang message: its parts. -/
abbrev Message := List Part

/-- The message `message.New([][]byte{[]byte("{}")})`: one part, the empty object. -/
def emptyMessage : Message := ["\x7b\x7d"]

/-- The call `m.Get(i).Get()`: bytes of part `i`, empty when out of bounds. -/
def Message.Get (m : Message) (i : Nat) : Part := m.getD i ""

/-- Behaviour of the libraries and of the process environment the put pipeline
calls into.
* `NewField text` compiles a field; the compiled field, given the length of the
  ghost record at the moment of the call and the input message, yields
  `f.String(0, input)`. That first argument stands for the moment of the call,
  so that the model covers expressions such as `uuid_v4()` or `now()` whose
  value differs between calls; an evaluator that is a function of the input
  and the text alone ignores it.
* `NewMapping text` compiles a mapping; the compiled mapping yields
  `m.MapPart(0, input)`.
* `ParseJSON` is `gabs.ParseJSON`.
* `Environ` is `os.Environ()`.
* `rangeOrder m` is the order in which a `range` loop visits the entries of `m`. -/
structure Extern where
  NewField : String → Except String (Nat → Message → String)
  NewMapping : String → Except String (Nat → Message → Except String Part)
  ParseJSON : String → Except String JVal
  Environ : List String
  rangeOrder : GoMap → GoMap
  rangeOrder_perm : ∀ m, (rangeOrder m).Perm m

/-- Ghost record of what a put has done so far: every call of `parseField` and
`parseMapping` with the input message it selected, and every call of
`NewAnsible`, of `setupSSH` and of `Ansible.Run`. -/
inductive Event where
  | field (input : Message) (text : String)
  | mapping (input : Message) (text : String)
  | newAnsible
  | setupSSH (key : String)
  | run
  deriving Repr, DecidableEq

/-- Out describes an out command executor. `evals` is ghost state. -/
structure Out where
  args : List String
  env : Environment
  input : Option Message
  evals : List Event

/-- Ansible manages state for an ansible-playbook invocation. -/
structure Ansible where
  args : List String
  envs : List String
  extraVars : Doc
  playbook : String

/-! ## ansible.go -/

/-- The helper `toList`: one `k=v` string per map entry, in iteration order. -/
def toList (x : Extern) (m : GoMap) : List String :=
  (x.rangeOrder m).map (fun kv => kv.1 ++ "=" ++ kv.2)

/-- NewAnsible initializes a new ansible playbook command. The debug switch that
appended `-v` is commented out in the source, so `args` starts empty. -/
def NewAnsible (x : Extern) (src : Source) (env : Environment) (playbook : String)
    (workdir : String) : Ansible :=
  let envs := x.Environ ++ toList x
    [("ANSIBLE_FORCE_COLOR", "True"),
     ("ANSIBLE_STDOUT_CALLBACK", "debug"),
     ("ANSIBLE_DISPLAY_SKIPPED_HOSTS", "False"),
     ("ANSIBLE_HASHI_VAULT_ADDR", src.Vault.Addr),
     ("ANSIBLE_HASHI_VAULT_AUTH_METHOD", "approle"),
     ("ANSIBLE_HASHI_VAULT_ROLE_ID", src.Vault.RoleID),
     ("ANSIBLE_HASHI_VAULT_SECRET_ID", src.Vault.SecretID),
     ("ANSIBLE_COLOR_OK", "white")]
  let extraVars : Doc := []
  let extraVars := extraVars.Set (.str env.ATCExternalURL) "concourse_atc_external_url"
  let extraVars := extraVars.Set (.str env.ID) "concourse_build_id"
  let extraVars := extraVars.Set (.str env.Job) "concourse_build_job"
  let extraVars := extraVars.Set (.str env.Name) "concourse_build_name"
  let extraVars := extraVars.Set (.str env.Pipeline) "concourse_build_pipeline"
  let extraVars := extraVars.Set (.str env.Team) "concourse_build_team"
  let extraVars := extraVars.Set (.str src.Component) "component"
  let extraVars := extraVars.Set src.Storage.toJSON "storage"
  let extraVars := extraVars.Set (.str workdir) "workdir"
  { args := [], envs := envs, extraVars := extraVars, playbook := playbook }

/-! ## out.go -/

/-- Sequencing of two steps of the put pipeline: the second runs only when the
first returned a value. -/
def andThen {α β : Type} (r : Result α × Out) (f : α → Out → Result β × Out) :
    Result β × Out :=
  match r with
  | (.ok v, c) => f v c
  | (.err e, c) => (.err e, c)
  | (.abort m, c) => (.abort m, c)

/-- The wrapping `fmt.Errorf(pfx + "%v", err)` of a returned error. -/
def wrapErr {α : Type} (pfx : String) (r : Result α × Out) : Result α × Out :=
  match r with
  | (.err e, c) => (.err (pfx ++ e), c)
  | other => other

/-- The input message an evaluation uses: `cmd.input`, or the empty object when
`cmd.input` is nil. -/
def Out.currentInput (cmd : Out) : Message :=
  match cmd.input with
  | none => emptyMessage
  | some m => m

/-- The expression `cmd.args[1]`; indexing past the end of the slice panics. -/
def Out.arg1 (cmd : Out) : Result String × Out :=
  match cmd.args.get? 1 with
  | some w => (.ok w, cmd)
  | none => (.abort "index out of range [1]", cmd)

/-- Parse text as bloblang field (`Out.parseField`). -/
def Out.parseField (x : Extern) (cmd : Out) (text : String) : Result String × Out :=
  let input := cmd.currentInput
  let cmd1 : Out := { cmd with evals := cmd.evals ++ [Event.field input text] }
  match x.NewField text with
  | .error e => (.err e, cmd1)
  | .ok f => (.ok (f cmd.evals.length input), cmd1)

/-- Parse text as bloblang mapping (`Out.parseMapping`): the result is a message
holding the one mapped part. -/
def Out.parseMapping (x : Extern) (cmd : Out) (text : String) : Result Message × Out :=
  let input := cmd.currentInput
  let cmd1 : Out := { cmd with evals := cmd.evals ++ [Event.mapping input text] }
  match x.NewMapping text with
  | .error e => (.err e, cmd1)
  | .ok m =>
    match m cmd.evals.length input with
    | .error e => (.err ("error executing mapping: " ++ e), cmd1)
    | .ok p => (.ok [p], cmd1)

/-- The release-version block of `injectExtraVars` (it evaluates
`req.Params.Context`, as the source does). -/
def Out.setReleaseVersion (x : Extern) (cmd : Out) (extraVars : Doc) (req : OutRequest) :
    Result Doc × Out :=
  if req.Params.ReleaseVersion ≠ "" then
    andThen (wrapErr "error parsing release version: " (cmd.parseField x req.Params.Context))
      fun releaseVersion c => (.ok (extraVars.Set (.str releaseVersion) "release_version"), c)
  else (.ok extraVars, cmd)

/-- The vars-mapping block of `injectExtraVars`. -/
def Out.setTerraformVars (x : Extern) (cmd : Out) (extraVars : Doc) (req : OutRequest) :
    Result Doc × Out :=
  if req.Params.VarsMapping ≠ "" then
    andThen (wrapErr "error executing vars mapping: " (cmd.parseMapping x req.Params.VarsMapping))
      fun tfvars c =>
        let b := tfvars.Get 0
        if b.length > 0 then
          match x.ParseJSON b with
          | .error e => (.err ("error parsing mapped vars: " ++ e), c)
          | .ok tfvarsJSON => (.ok (extraVars.Set tfvarsJSON "terraform_vars"), c)
        else (.ok extraVars, c)
  else (.ok extraVars, cmd)

/-- The loop over `req.Params.VarFiles` of `injectExtraVars`; `acc` holds the
entries already filled in. -/
def Out.varFilesLoop (x : Extern) : Out → List String → List String → Result (List String) × Out
  | cmd, [], acc => (.ok acc, cmd)
  | cmd, f :: rest, acc =>
    andThen (wrapErr "error parsing var file: " (cmd.parseField x f)) fun varFile c =>
      if !hasLeadingSlash varFile then
        andThen c.arg1 fun w c1 => Out.varFilesLoop x c1 rest (acc ++ [pathJoin w varFile])
      else Out.varFilesLoop x c rest (acc ++ [varFile])

/-- The var-files block of `injectExtraVars`. -/
def Out.setVarFiles (x : Extern) (cmd : Out) (extraVars : Doc) (req : OutRequest) :
    Result Doc × Out :=
  if req.Params.VarFiles.length > 0 then
    andThen (Out.varFilesLoop x cmd req.Params.VarFiles []) fun varFiles c =>
      (.ok (extraVars.Set (.arr (varFiles.map JVal.str)) "terraform_var_files"), c)
  else (.ok extraVars, cmd)

/-- Inject playbook-specific extra variables (`Out.injectExtraVars`). -/
def Out.injectExtraVars (x : Extern) (cmd : Out) (extraVars : Doc) (req : OutRequest) :
    Result Doc × Out :=
  -- set context
  andThen (cmd.parseField x req.Params.Context) fun context c1 =>
  let extraVars := extraVars.Set (.str context) "context"
  -- set terraform_workspace
  andThen (wrapErr "error parsing request param: " (c1.parseField x req.Params.Workspace))
    fun workspace c2 =>
  let workspace := if workspace = "" then context else workspace
  let extraVars := extraVars.Set (.str workspace) "terraform_workspace"
  -- parse release version
  andThen (c2.setReleaseVersion x extraVars req) fun extraVars c3 =>
  -- parse vars mapping
  andThen (c3.setTerraformVars x extraVars req) fun extraVars c4 =>
  andThen (c4.setVarFiles x extraVars req) fun extraVars c5 =>
  andThen c5.arg1 fun w c6 =>
  let extraVars := extraVars.Set (.str (pathJoin w req.Params.Dir)) "terraform_path"
  let extraVars := extraVars.Set (.bool req.Params.PlanOnly) "plan_only"
  let extraVars := extraVars.Set (.bool req.Params.Destroy) "destroy"
  (.ok extraVars, c6)

/-- The loop of `ansiblePlaybookCmd` that merges user provided environment
variables into the command. -/
def Out.mergeEnvs (x : Extern) : Out → GoMap → Ansible → Result Ansible × Out
  | cmd, [], ansible => (.ok ansible, cmd)
  | cmd, (k, v) :: rest, ansible =>
    andThen (wrapErr ("error parsing env (" ++ k ++ "): ") (cmd.parseField x v)) fun parsed c =>
      Out.mergeEnvs x c rest { ansible with envs := ansible.envs ++ [k ++ "=" ++ parsed] }

/-- The input-mapping block of `ansiblePlaybookCmd`: `cmd.input` is assigned the
result of `parseMapping`, which is nil when the mapping fails. -/
def Out.computeInput (x : Extern) (cmd : Out) (req : OutRequest) : Result Unit × Out :=
  if req.Params.InputMapping ≠ "" then
    match cmd.parseMapping x req.Params.InputMapping with
    | (.ok m, c) => (.ok (), { c with input := some m })
    | (.err e, c) => (.err ("error parsing input context: " ++ e), { c with input := none })
    | (.abort e, c) => (.abort e, { c with input := none })
  else (.ok (), cmd)

/-- The part of `ansiblePlaybookCmd` that follows the input mapping: create the
command, merge the user provided environment variables and inject the extra
variables. `req.Envs()` writes into the request, so the request is returned. -/
def Out.buildCommand (x : Extern) (cmd : Out) (req : OutRequest) :
    Result Ansible × OutRequest × Out :=
  match cmd.arg1 with
  | (.err e, c2) => (.err e, req, c2)
  | (.abort e, c2) => (.abort e, req, c2)
  | (.ok w, c2) =>
    let ansible := NewAnsible x req.Source c2.env "/opt/ansible/out.yml" w
    let c3 : Out := { c2 with evals := c2.evals ++ [Event.newAnsible] }
    -- merge user provided environment variables
    let envsReq := req.Envs x.rangeOrder
    let r : Result Ansible × Out :=
      andThen (Out.mergeEnvs x c3 (x.rangeOrder envsReq.1) ansible) fun ansible c4 =>
      -- write ansible playbook extra vars file and set arg
      andThen (wrapErr "error writing ansible extra vars: "
        (c4.injectExtraVars x ansible.extraVars envsReq.2)) fun extraVars c5 =>
      (.ok { ansible with extraVars := extraVars }, c5)
    (r.1, envsReq.2, r.2)

/-- Prepare ansible-playbook command (`Out.ansiblePlaybookCmd`). The request is
passed by pointer and mutated, so the request after the call is returned too. -/
def Out.ansiblePlaybookCmd (x : Extern) (cmd : Out) (req : OutRequest) :
    Result Ansible × OutRequest × Out :=
  -- validate put request
  match req.Validate with
  | some e => (.err ("invalid put request: " ++ e), req, cmd)
  | none =>
    let req1 : OutRequest := req.assignFallback cmd.env.Team cmd.env.Pipeline
    -- compute operation input
    match cmd.computeInput x req1 with
    | (.err e, c1) => (.err e, req1, c1)
    | (.abort e, c1) => (.abort e, req1, c1)
    | (.ok _, c1) => c1.buildCommand x req1

/-- What the operating system and the surrounding process give one invocation
of `Out.Execute`.
* `parseEnvironment` is the result of `envconfig.Process`.
* `decode` is the result of decoding standard input into an `OutRequest`.
* `setupSSH key` is the outcome of `setupSSH` (an error when the agent cannot be
  spawned, an abort on its `log.Fatalf` paths).
* `chdir dir` is the error of `os.Chdir`, `none` when it succeeds.
* `tempFile` is the outcome of `ioutil.TempFile("", "vars")`: the name of the
  file it created, or its error.
* `writeFile name` is the error of `ioutil.WriteFile(name, ...)`, `none` when it
  succeeds.
* `command argv env` is the error of running `ansible-playbook` with these
  arguments and this environment, `none` when the child exits with status zero.
* `readVersionID` is the content of the file `version_id`, `none` when
  `ioutil.ReadFile` fails.
* `now` is `time.Now().Format(time.RFC3339Nano)`.
* `write v` is the error of encoding `v` to standard output, `none` on success. -/
structure World where
  parseEnvironment : Result Environment
  decode : Result OutRequest
  setupSSH : String → Result Unit
  chdir : String → Option String
  tempFile : Result String
  writeFile : String → Option String
  command : List String → List String → Option String
  readVersionID : Option String
  now : String
  write : JVal → Option String

/-- What one invocation of `Out.Execute` leaves behind: the returned error (or
`ok` for nil), the documents written to standard output, the temporary files that exist and
the executor with its ghost record. -/
structure Finished where
  result : Result Unit
  stdout : List JVal
  files : List String
  cmd : Out

/-- Prepare ansible-playbook run (`Ansible.prepareRun`): create the temporary
vars file, write the document to it and add the `-e @file` argument. `files`
are the temporary files that exist. Returns the name of the open file, or an
error together with a nil file. -/
def Ansible.prepareRun (w : World) (a : Ansible) (files : List String) :
    Result String × Ansible × List String :=
  match w.tempFile with
  | .err e => (.err ("error creating file: " ++ e), a, files)
  | .abort e => (.abort e, a, files)
  | .ok name =>
    let files1 := name :: files
    match w.writeFile name with
    | some e => (.err ("error writing file: " ++ e), a, files1)
    | none => (.ok name, { a with args := a.args ++ ["-e", "@" ++ name] }, files1)

/-- Run wraps the underlying command run function invocation and handles
cleanup (`Ansible.Run`). The statement `defer os.Remove(extraVars.Name())`
evaluates `extraVars.Name()` before the error of `prepareRun` is looked at; on a
nil file that call dereferences a nil pointer. -/
def Ansible.Run (x : Extern) (w : World) (a : Ansible) (files : List String) :
    Result Unit × Ansible × List String :=
  match a.prepareRun w files with
  | (.err _, a1, files1) => (.abort "nil pointer dereference", a1, files1)
  | (.abort e, a1, files1) => (.abort e, a1, files1)
  | (.ok name, a1, files1) =>
    let result : Result Unit :=
      match w.command (a1.args ++ [a1.playbook]) (x.Environ ++ a1.envs) with
      | some e => .err e
      | none => .ok ()
    (result, a1, files1.filter (fun f => f ≠ name))

/-- NewOut instantiates a new out command executor; the environment is zero
until `parseEnvironment` fills it in at the start of `Execute`. -/
def NewOut (args : List String) : Out :=
  { args := args, env := ⟨"", "", "", "", "", ""⟩, input := none, evals := [] }

/-- JSON encoding of an `OutResponse` whose `Metadata` slice is left nil. -/
def outResponseJSON (version : Version) : JVal :=
  .obj [("version", version.toJSON), ("metadata", .null)]

/-- The ssh block of `Out.Execute`. The deferred `agent.Shutdown()` belongs to
the ssh package and has no effect on what is modelled here. -/
def Out.configureSSH (x : Extern) (w : World) (cmd : Out) (req : OutRequest) :
    Result Unit × Out :=
  if req.PrivateKey.2 then
    andThen (wrapErr "error parsing private key: " (cmd.parseField x req.PrivateKey.1))
      fun key c =>
        wrapErr "error configuring ssh agent: "
          (w.setupSSH key, { c with evals := c.evals ++ [Event.setupSSH key] })
  else (.ok (), cmd)

/-- The tail of `Out.Execute` after the playbook command is built: run it,
resolve the version, write the response. -/
def Out.runAndRespond (x : Extern) (w : World) (cmd : Out) (ansible : Ansible)
    (req : OutRequest) (files : List String) : Finished :=
  let cmd1 : Out := { cmd with evals := cmd.evals ++ [Event.run] }
  match ansible.Run x w files with
  | (.err e, _, files1) =>
    { result := .err ("error executing ansible-playbook: " ++ e), stdout := [],
      files := files1, cmd := cmd1 }
  | (.abort e, _, files1) => { result := .abort e, stdout := [], files := files1, cmd := cmd1 }
  | (.ok _, _, files1) =>
    let versionID : String :=
      match w.readVersionID with
      | some content => content
      | none => w.now
    let version : Version := { Key := req.Source.Storage.Key, VersionID := versionID }
    let resp := outResponseJSON version
    match w.write resp with
    | some e =>
      { result := .err ("error marshalling response: " ++ e), stdout := [],
        files := files1, cmd := cmd1 }
    | none => { result := .ok (), stdout := [resp], files := files1, cmd := cmd1 }

/-- Execute handles a put operation (`Out.Execute`); `files` are the temporary
files that exist when it starts. -/
def Out.Execute (x : Extern) (w : World) (args : List String) (files : List String) :
    Finished :=
  let stop (result : Result Unit) (cmd : Out) : Finished :=
    { result := result, stdout := [], files := files, cmd := cmd }
  match w.parseEnvironment with
  | .err e => stop (.err e) (NewOut args)
  | .abort e => stop (.abort e) (NewOut args)
  | .ok env =>
    let cmd : Out := { NewOut args with env := env }
    -- parse put operation request
    match w.decode with
    | .err e => stop (.err ("invalid payload: " ++ e)) cmd
    | .abort e => stop (.abort e) cmd
    | .ok req =>
      -- configure ssh
      match cmd.configureSSH x w req with
      | (.err e, c1) => stop (.err e) c1
      | (.abort e, c1) => stop (.abort e) c1
      | (.ok _, c1) =>
        -- change into target working directory
        match c1.arg1 with
        | (.err e, c2) => stop (.err e) c2
        | (.abort e, c2) => stop (.abort e) c2
        | (.ok dir, c2) =>
          match w.chdir dir with
          | some e => stop (.err ("error changing into out working directory: " ++ e)) c2
          | none =>
            -- execute ansible-playbook
            match c2.ansiblePlaybookCmd x req with
            | (.err e, _, c3) =>
              stop (.err ("Failed to build ansible playbook command: " ++ e)) c3
            | (.abort e, _, c3) => stop (.abort e) c3
            | (.ok ansible, req1, c3) => c3.runAndRespond x w ansible req1 files

/-! ## check.go -/

/-- CheckRequest describes the input to a check operation; `Version` is a
pointer, nil when the payload has no version or a null one. -/
structure CheckRequest where
  Source : Source
  Version : Option Version

/-- JSON encoding of a Go slice of versions: a nil slice (`none`) encodes as
`null`, any other slice as an array. -/
def encodeVersions : Option (List Version) → JVal
  | none => .null
  | some vs => .arr (vs.map Version.toJSON)

/-- The slice built by `Check.Execute` from a decoded request: it starts as the
empty, non-nil slice `[]types.Version{}`. -/
def Check.versions (req : CheckRequest) : Option (List Version) :=
  let versions : Option (List Version) := some []
  match req.Version with
  | some v => versions.map (fun vs => vs ++ [v])
  | none => versions

/-- Execute handles a check operation (`Check.Execute`): `decode` is the result
of decoding standard input, `write` the error of encoding to standard output
(`none` on success). Returns the error and the documents written. -/
def Check.Execute (decode : Result CheckRequest) (write : JVal → Option String) :
    Result Unit × List JVal :=
  match decode with
  | .err e => (.err ("invalid payload: " ++ e), [])
  | .abort e => (.abort e, [])
  | .ok req =>
    let versions := Check.versions req
    match write (encodeVersions versions) with
    | some e => (.err ("error marshalling response: " ++ e), [])
    | none => (.ok (), [encodeVersions versions])

/-! ## Reading the ghost record -/

/-- An evaluator call recorded in `e` was made against the message `m`; events
that are not evaluator calls pass. -/
def Event.usesInput (m : Message) : Event → Prop
  | .field i _ => i = m
  | .mapping i _ => i = m
  | _ => True

/-- The executor `c'` comes from `c` by evaluator calls that all used the input
message of `c`, and by nothing else: same input, arguments and environment. -/
def Out.advances (c c' : Out) : Prop :=
  c'.input = c.input ∧ c'.args = c.args ∧ c'.env = c.env ∧
  ∃ evs, c'.evals = c.evals ++ evs ∧ ∀ e ∈ evs, Event.usesInput c.currentInput e

/-- The ghost record of `c'` is that of `c` followed by events that all
satisfy `P`. -/
def Out.grows (P : Event → Prop) (c c' : Out) : Prop :=
  ∃ evs, c'.evals = c.evals ++ evs ∧ ∀ e ∈ evs, P e

/-- The event is not a call of `setupSSH`. -/
def Event.notSSH : Event → Prop
  | .setupSSH _ => False
  | _ => True

/-! ## Sample collaborators used to run the model on concrete requests -/

/-- An evaluator for plain texts: a field evaluates to its own text, a mapping to
a part holding its own text, `ParseJSON` reads any text as a JSON string; the
process environment is empty and maps are visited in stored order. -/
def plainExtern : Extern where
  NewField := fun text => .ok (fun _ _ => text)
  NewMapping := fun text => .ok (fun _ _ => .ok text)
  ParseJSON := fun b => .ok (.str b)
  Environ := []
  rangeOrder := fun m => m
  rangeOrder_perm := fun m => List.Perm.refl m

/-- The environment of the repository's put test. -/
def sampleEnv : Environment :=
  { ID := "2199", Job := "testing", Name := "217", Pipeline := "example-component",
    Team := "sre", ATCExternalURL := "http://127.0.0.1:8080" }

/-- The executor of the repository's put test. -/
def sampleOut : Out :=
  { args := ["/out", "/tmp/build/put"], env := sampleEnv, input := none, evals := [] }

/-- The source of the repository's put test (no component, no storage key). -/
def sampleSource : Source :=
  { Component := "", Envs := none, PrivateKey := "",
    Storage := { AWSAccessKeyID := "foo", AWSSecretAccessKey := "bar", Bucket := "foo",
                 Key := "", Region := "us-east-1" },
    Vault := { Addr := "https://vault.com", RoleID := "vault-role-d",
               SecretID := "vault-secret-id" } }

/-- The parameters of the basic case of the repository's put test. -/
def sampleParams : OutParams :=
  { Context := "foo", Dir := "source/terraform", Envs := none, InputMapping := "",
    PlanOnly := false, Destroy := false, PrivateKey := "", ReleaseVersion := "",
    VarFiles := [], VarsMapping := "", Workspace := "" }

/-- The request of the basic case of the repository's put test. -/
def sampleRequest : OutRequest := { Source := sampleSource, Params := sampleParams }

/-- The command `ansiblePlaybookCmd` builds for `sampleRequest`. -/
def sampleAnsible : Ansible :=
  { args := [],
    envs := ["ANSIBLE_FORCE_COLOR=True", "ANSIBLE_STDOUT_CALLBACK=debug",
             "ANSIBLE_DISPLAY_SKIPPED_HOSTS=False", "ANSIBLE_HASHI_VAULT_ADDR=https://vault.com",
             "ANSIBLE_HASHI_VAULT_AUTH_METHOD=approle", "ANSIBLE_HASHI_VAULT_ROLE_ID=vault-role-d",
             "ANSIBLE_HASHI_VAULT_SECRET_ID=vault-secret-id", "ANSIBLE_COLOR_OK=white"],
    extraVars :=
      [("destroy", .bool false),
       ("plan_only", .bool false),
       ("terraform_path", .str "/tmp/build/put/source/terraform"),
       ("terraform_workspace", .str "foo"),
       ("context", .str "foo"),
       ("workdir", .str "/tmp/build/put"),
       ("storage", .obj
          [("aws_access_key_id", .str "foo"),
           ("aws_secret_access_key", .str "bar"),
           ("bucket", .str "foo"),
           ("key", .str "sre/example-component/concourse-terraform-resource/version.tgz"),
           ("region", .str "us-east-1")]),
       ("component", .str "example-component"),
       ("concourse_build_team", .str "sre"),
       ("concourse_build_pipeline", .str "example-component"),
       ("concourse_build_name", .str "217"),
       ("concourse_build_job", .str "testing"),
       ("concourse_build_id", .str "2199"),
       ("concourse_atc_external_url", .str "http://127.0.0.1:8080")],
    playbook := "/opt/ansible/out.yml" }

/-- The request `sampleRequest` after `ansiblePlaybookCmd` assigned the fallback
values. -/
def sampleRequestAfter : OutRequest :=
  { Source :=
      { sampleSource with
        Component := "example-component",
        Storage :=
          { sampleSource.Storage with
            Key := "sre/example-component/concourse-terraform-resource/version.tgz" } },
    Params := sampleParams }

/-- The executor `sampleOut` after `ansiblePlaybookCmd` ran on `sampleRequest`. -/
def sampleOutAfter : Out :=
  { sampleOut with
    evals := [Event.newAnsible, Event.field emptyMessage "foo", Event.field emptyMessage ""] }

/-- A request that is valid except for its empty `Dir`. -/
def noDirRequest : OutRequest :=
  { Source := sampleSource, Params := { sampleParams with Dir := "" } }

/-- The put test's request with the given context and workspace expressions. -/
def requestWith (context workspace : String) : OutRequest :=
  { Source := sampleSource,
    Params := { sampleParams with Context := context, Workspace := workspace } }

/-- The document `injectExtraVars` builds from the empty document for
`requestWith context workspace` under `plainExtern`, with `tfws` the value of
`terraform_workspace`. -/
def docWith (context tfws : String) : Doc :=
  [("destroy", .bool false),
   ("plan_only", .bool false),
   ("terraform_path", .str "/tmp/build/put/source/terraform"),
   ("terraform_workspace", .str tfws),
   ("context", .str context)]

/-- The executor `sampleOut` after `injectExtraVars` ran on
`requestWith context workspace`. -/
def outWith (context workspace : String) : Out :=
  { sampleOut with
    evals := [Event.field emptyMessage context, Event.field emptyMessage workspace] }

/-- An evaluator whose every mapping yields the object with the one field
`region`, and whose `ParseJSON` reads exactly that text. -/
def varsExtern : Extern :=
  { plainExtern with
    NewMapping := fun _ => .ok (fun _ _ => .ok "\x7b\"region\":\"us-east-2\"\x7d")
    ParseJSON := fun b =>
      if b = "\x7b\"region\":\"us-east-2\"\x7d" then .ok (.obj [("region", .str "us-east-2")])
      else .error "invalid character" }

/-- The put test's request with a vars mapping. -/
def varsRequest : OutRequest :=
  { Source := sampleSource, Params := { sampleParams with VarsMapping := "root = vars" } }

/-- The document `injectExtraVars` builds from the empty document for
`varsRequest` under `varsExtern`. -/
def varsDoc : Doc :=
  [("destroy", .bool false),
   ("plan_only", .bool false),
   ("terraform_path", .str "/tmp/build/put/source/terraform"),
   ("terraform_vars", .obj [("region", .str "us-east-2")]),
   ("terraform_workspace", .str "foo"),
   ("context", .str "foo")]

/-- The executor `sampleOut` after `injectExtraVars` ran on `varsRequest`. -/
def varsOutAfter : Out :=
  { sampleOut with
    evals := [Event.field emptyMessage "foo", Event.field emptyMessage "",
              Event.mapping emptyMessage "root = vars"] }

/-- A world in which every step outside the put pipeline succeeds: the
environment of the put test, the given request on standard input, and no
`version_id` file. -/
def sampleWorld (req : OutRequest) : World :=
  { parseEnvironment := .ok sampleEnv
    decode := .ok req
    setupSSH := fun _ => .ok ()
    chdir := fun _ => none
    tempFile := .ok "/tmp/vars012345"
    writeFile := fun _ => none
    command := fun _ _ => none
    readVersionID := none
    now := "2021-03-04T05:06:07.000000008Z"
    write := fun _ => none }

/-- The put test's request with a private key and an input mapping. -/
def keyRequest : OutRequest :=
  { Source := sampleSource,
    Params := { sampleParams with PrivateKey := "key", InputMapping := "root = this" } }

/-- The causality rule read with the private key included: the record starts
with the input mapping `im`, evaluated against the empty object, and every later
evaluator call used the message `m`. -/
def inputMappingFirst (im : String) (m : Message) (evals : List Event) : Prop :=
  ∃ rest, evals = Event.mapping emptyMessage im :: rest ∧ ∀ e ∈ rest, Event.usesInput m e

/-- The entry of `terraform_var_files` for an evaluated expression `e` under the
working directory `w`. -/
def varFileEntry (w e : String) : String :=
  if hasLeadingSlash e then e else pathJoin w e

/-- The put test's request with an absolute and a relative var file. -/
def varFilesRequest : OutRequest :=
  { Source := sampleSource,
    Params := { sampleParams with VarFiles := ["/etc/a.tfvars", "env/b.tfvars"] } }

/-- A world like `sampleWorld` in which the `version_id` file holds `content`. -/
def artifactWorld (req : OutRequest) (content : String) : World :=
  { sampleWorld req with readVersionID := some content }

/-- A world like `sampleWorld` in which the temporary file cannot be created. -/
def noTempWorld : World :=
  { sampleWorld sampleRequest with tempFile := .err "permission denied" }

/-- A world like `sampleWorld` in which the temporary file is created but
writing to it fails. -/
def noWriteWorld : World :=
  { sampleWorld sampleRequest with writeFile := fun _ => some "no space left on device" }

/-- A world like `sampleWorld` in which the child process exits with a non-zero
status. -/
def failedChildWorld : World :=
  { sampleWorld sampleRequest with command := fun _ _ => some "exit status 2" }

/-- The put test's request with a private key in the source only. -/
def sourceKeyRequest : OutRequest :=
  { Source := { sampleSource with PrivateKey := "source-key" }, Params := sampleParams }

/-- The keys of a Go map are pairwise distinct. -/
def GoMap.keysNodup (m : GoMap) : Prop := (m.map Prod.fst).Nodup

/-- The entries of a Go map that may be nil: a nil map has none. -/
def GoMap.ofNil : Option GoMap → GoMap
  | none => []
  | some m => m

/-- The put test's request with env vars in the source and in the params,
overlapping on `B`. -/
def envsRequest : OutRequest :=
  { Source := { sampleSource with Envs := some [("A", "1"), ("B", "2")] },
    Params := { sampleParams with Envs := some [("B", "3"), ("C", "4")] } }

/-- The put test's request with env vars in the params only (nil in the
source). -/
def paramsEnvsRequest : OutRequest :=
  { Source := sampleSource,
    Params := { sampleParams with Envs := some [("B", "3"), ("C", "4")] } }

/-- The document `injectExtraVars` builds from the empty document for
`varFilesRequest` under `plainExtern`. -/
def varFilesDoc : Doc :=
  [("destroy", .bool false),
   ("plan_only", .bool false),
   ("terraform_path", .str "/tmp/build/put/source/terraform"),
   ("terraform_var_files", .arr [.str "/etc/a.tfvars", .str "/tmp/build/put/env/b.tfvars"]),
   ("terraform_workspace", .str "foo"),
   ("context", .str "foo")]

/-- The executor `sampleOut` after `injectExtraVars` ran on `varFilesRequest`. -/
def varFilesOutAfter : Out :=
  { sampleOut with
    evals := [Event.field emptyMessage "foo", Event.field emptyMessage "",
              Event.field emptyMessage "/etc/a.tfvars",
              Event.field emptyMessage "env/b.tfvars"] }

/-- The command `sampleAnsible` after `prepareRun` added the vars-file
argument. -/
def sampleAnsiblePrepared : Ansible :=
  { sampleAnsible with args := ["-e", "@/tmp/vars012345"] }

/-- The source of the put test's "storage key config" case. -/
def keyedSource : Source :=
  { sampleSource with Storage := { sampleSource.Storage with Key := "agreatkeyforyou" } }

theorem Doc.get_erase_ne (d : Doc) (k k' : String) (h : k' ≠ k) :
    Doc.get (d.erase k) k' = Doc.get d k' := by
  induction d with
  | nil => rfl
  | cons kv rest ih =>
    obtain ⟨k0, v0⟩ := kv
    by_cases hk : k0 = k
    · subst hk
      have hne : ¬ k0 = k' := fun e => h e.symm
      simp only [Doc.erase, Doc.get, if_true, if_neg hne, ih]
    · by_cases hk' : k0 = k'
      · subst hk'
        simp only [Doc.erase, Doc.get, if_neg hk, if_true]
      · simp only [Doc.erase, Doc.get, if_neg hk, if_neg hk', ih]

theorem Doc.get_Set_same (d : Doc) (v : JVal) (k : String) :
    (d.Set v k).get k = some v := by
  simp [Doc.Set, Doc.get]

theorem Doc.get_Set_ne (d : Doc) (v : JVal) (k k' : String) (h : k' ≠ k) :
    (d.Set v k).get k' = d.get k' := by
  have hne : ¬ k = k' := fun e => h e.symm
  simp [Doc.Set, Doc.get, hne, Doc.get_erase_ne d k k' h]

theorem andThen_ok {α β : Type} (r : Result α × Out) (f : α → Out → Result β × Out)
    (v : β) (c : Out) (h : andThen r f = (.ok v, c)) :
    ∃ a c0, r = (.ok a, c0) ∧ f a c0 = (.ok v, c) := by
  obtain ⟨res, c0⟩ := r
  cases res with
  | ok a => exact ⟨a, c0, rfl, h⟩
  | err e => simp [andThen] at h
  | abort e => simp [andThen] at h

theorem wrapErr_ok {α : Type} (pfx : String) (r : Result α × Out) (v : α) (c : Out)
    (h : wrapErr pfx r = (.ok v, c)) : r = (.ok v, c) := by
  obtain ⟨res, c0⟩ := r
  cases res with
  | ok a => exact h
  | err e => simp [wrapErr] at h
  | abort e => exact h

theorem arg1_ok (c c' : Out) (w : String) (h : c.arg1 = (.ok w, c')) :
    c.args.get? 1 = some w ∧ c' = c := by
  unfold Out.arg1 at h
  split at h
  · rename_i w0 hw
    simp only [Prod.mk.injEq, Result.ok.injEq] at h
    exact ⟨by rw [hw, h.1], h.2.symm⟩
  · simp at h

/-! ## Every block evaluates against the executor's current input -/

theorem advances_refl (c : Out) : c.advances c :=
  ⟨rfl, rfl, rfl, [], by simp, by simp⟩

theorem currentInput_congr (c c' : Out) (h : c'.input = c.input) :
    c'.currentInput = c.currentInput := by
  unfold Out.currentInput
  rw [h]

theorem advances_trans (a b c : Out) (h1 : a.advances b) (h2 : b.advances c) :
    a.advances c := by
  obtain ⟨i1, a1, e1, evs1, v1, u1⟩ := h1
  obtain ⟨i2, a2, e2, evs2, v2, u2⟩ := h2
  refine ⟨i2.trans i1, a2.trans a1, e2.trans e1, evs1 ++ evs2, ?_, ?_⟩
  · rw [v2, v1, List.append_assoc]
  · intro e he
    rcases List.mem_append.mp he with he | he
    · exact u1 e he
    · rw [← currentInput_congr a b i1]
      exact u2 e he

theorem wrapErr_snd {α : Type} (pfx : String) (r : Result α × Out) :
    (wrapErr pfx r).2 = r.2 := by
  obtain ⟨res, c0⟩ := r
  cases res <;> rfl

theorem andThen_advances {α β : Type} (c : Out) (r : Result α × Out)
    (f : α → Out → Result β × Out) (h1 : c.advances r.2)
    (h2 : ∀ a c0, c.advances c0 → c.advances (f a c0).2) : c.advances (andThen r f).2 := by
  obtain ⟨res, c0⟩ := r
  cases res with
  | ok a => exact h2 a c0 h1
  | err e => exact h1
  | abort e => exact h1

theorem parseField_advances (x : Extern) (c : Out) (text : String) :
    c.advances (c.parseField x text).2 := by
  have h : (c.parseField x text).2
      = { c with evals := c.evals ++ [Event.field c.currentInput text] } := by
    unfold Out.parseField
    dsimp only
    split <;> rfl
  rw [h]
  exact ⟨rfl, rfl, rfl, [Event.field c.currentInput text], rfl, by simp [Event.usesInput]⟩

theorem parseMapping_advances (x : Extern) (c : Out) (text : String) :
    c.advances (c.parseMapping x text).2 := by
  have h : (c.parseMapping x text).2
      = { c with evals := c.evals ++ [Event.mapping c.currentInput text] } := by
    unfold Out.parseMapping
    dsimp only
    split
    · rfl
    · split <;> rfl
  rw [h]
  exact ⟨rfl, rfl, rfl, [Event.mapping c.currentInput text], rfl, by simp [Event.usesInput]⟩

theorem arg1_advances (c : Out) : c.advances c.arg1.2 := by
  unfold Out.arg1
  split <;> exact advances_refl c

theorem setReleaseVersion_advances (x : Extern) (c : Out) (d : Doc) (req : OutRequest) :
    c.advances (c.setReleaseVersion x d req).2 := by
  unfold Out.setReleaseVersion
  split
  · apply andThen_advances
    · rw [wrapErr_snd]
      exact parseField_advances x c _
    · intro a c0 h
      exact h
  · exact advances_refl c

theorem setTerraformVars_advances (x : Extern) (c : Out) (d : Doc) (req : OutRequest) :
    c.advances (c.setTerraformVars x d req).2 := by
  unfold Out.setTerraformVars
  split
  · apply andThen_advances
    · rw [wrapErr_snd]
      exact parseMapping_advances x c _
    · intro a c0 h
      dsimp only
      split
      · split <;> exact h
      · exact h
  · exact advances_refl c

theorem varFilesLoop_advances (x : Extern) (fs : List String) :
    ∀ (c : Out) (acc : List String), c.advances (Out.varFilesLoop x c fs acc).2 := by
  induction fs with
  | nil =>
    intro c acc
    exact advances_refl c
  | cons f rest ih =>
    intro c acc
    unfold Out.varFilesLoop
    apply andThen_advances
    · rw [wrapErr_snd]
      exact parseField_advances x c _
    · intro varFile c0 h
      dsimp only
      split
      · apply andThen_advances
        · exact advances_trans _ _ _ h (arg1_advances c0)
        · intro w c1 h1
          exact advances_trans _ _ _ h1 (ih c1 _)
      · exact advances_trans _ _ _ h (ih c0 _)

theorem setVarFiles_advances (x : Extern) (c : Out) (d : Doc) (req : OutRequest) :
    c.advances (c.setVarFiles x d req).2 := by
  unfold Out.setVarFiles
  split
  · apply andThen_advances
    · exact varFilesLoop_advances x _ c _
    · intro a c0 h
      exact h
  · exact advances_refl c

theorem injectExtraVars_advances (x : Extern) (c : Out) (d : Doc) (req : OutRequest) :
    c.advances (c.injectExtraVars x d req).2 := by
  unfold Out.injectExtraVars
  apply andThen_advances
  · exact parseField_advances x c _
  · intro context c1 h1
    dsimp only
    apply andThen_advances
    · rw [wrapErr_snd]
      exact advances_trans _ _ _ h1 (parseField_advances x c1 _)
    · intro workspace c2 h2
      apply andThen_advances
      · exact advances_trans _ _ _ h2 (setReleaseVersion_advances x c2 _ req)
      · intro d3 c3 h3
        apply andThen_advances
        · exact advances_trans _ _ _ h3 (setTerraformVars_advances x c3 _ req)
        · intro d4 c4 h4
          apply andThen_advances
          · exact advances_trans _ _ _ h4 (setVarFiles_advances x c4 _ req)
          · intro d5 c5 h5
            apply andThen_advances
            · exact advances_trans _ _ _ h5 (arg1_advances c5)
            · intro w c6 h6
              exact h6

theorem mergeEnvs_advances (x : Extern) (envs : GoMap) :
    ∀ (c : Out) (a : Ansible), c.advances (Out.mergeEnvs x c envs a).2 := by
  induction envs with
  | nil =>
    intro c a
    exact advances_refl c
  | cons kv rest ih =>
    intro c a
    obtain ⟨k, v⟩ := kv
    unfold Out.mergeEnvs
    apply andThen_advances
    · rw [wrapErr_snd]
      exact parseField_advances x c _
    · intro parsed c0 h
      exact advances_trans _ _ _ h (ih c0 _)

/-! ## What each block of `injectExtraVars` writes -/

theorem setReleaseVersion_ok (x : Extern) (c c' : Out) (d d' : Doc) (req : OutRequest)
    (h : c.setReleaseVersion x d req = (.ok d', c')) :
    (req.Params.ReleaseVersion = "" ∧ d' = d ∧ c' = c) ∨
    (req.Params.ReleaseVersion ≠ "" ∧ ∃ v, c.parseField x req.Params.Context = (.ok v, c') ∧
      d' = d.Set (.str v) "release_version") := by
  unfold Out.setReleaseVersion at h
  by_cases hr : req.Params.ReleaseVersion = ""
  · left
    simp only [hr, ne_eq, not_true_eq_false, if_false, Prod.mk.injEq, Result.ok.injEq] at h
    exact ⟨hr, h.1.symm, h.2.symm⟩
  · right
    simp only [ne_eq, hr, not_false_eq_true, if_true] at h
    obtain ⟨v, c0, h1, h2⟩ := andThen_ok _ _ _ _ h
    have h1 := wrapErr_ok _ _ _ _ h1
    simp only [Prod.mk.injEq, Result.ok.injEq] at h2
    refine ⟨hr, v, ?_, h2.1.symm⟩
    rw [h1, h2.2]

theorem setTerraformVars_ok (x : Extern) (c c' : Out) (d d' : Doc) (req : OutRequest)
    (h : c.setTerraformVars x d req = (.ok d', c')) :
    (req.Params.VarsMapping = "" ∧ d' = d ∧ c' = c) ∨
    (req.Params.VarsMapping ≠ "" ∧ ∃ tfvars,
      c.parseMapping x req.Params.VarsMapping = (.ok tfvars, c') ∧
      (((tfvars.Get 0).length = 0 ∧ d' = d) ∨
       ((tfvars.Get 0).length > 0 ∧ ∃ j, x.ParseJSON (tfvars.Get 0) = .ok j ∧
          d' = d.Set j "terraform_vars"))) := by
  unfold Out.setTerraformVars at h
  by_cases hr : req.Params.VarsMapping = ""
  · left
    simp only [hr, ne_eq, not_true_eq_false, if_false, Prod.mk.injEq, Result.ok.injEq] at h
    exact ⟨hr, h.1.symm, h.2.symm⟩
  · right
    simp only [ne_eq, hr, not_false_eq_true, if_true] at h
    obtain ⟨tfvars, c0, h1, h2⟩ := andThen_ok _ _ _ _ h
    have h1 := wrapErr_ok _ _ _ _ h1
    refine ⟨hr, tfvars, ?_, ?_⟩
    · by_cases hb : (tfvars.Get 0).length > 0
      · simp only [hb, if_true] at h2
        split at h2
        · simp at h2
        · simp only [Prod.mk.injEq, Result.ok.injEq] at h2
          rw [h1, h2.2]
      · simp only [hb, if_false, Prod.mk.injEq, Result.ok.injEq] at h2
        rw [h1, h2.2]
    · by_cases hb : (tfvars.Get 0).length > 0
      · right
        simp only [hb, if_true] at h2
        split at h2
        · simp at h2
        · rename_i j hj
          simp only [Prod.mk.injEq, Result.ok.injEq] at h2
          exact ⟨hb, j, hj, h2.1.symm⟩
      · left
        simp only [hb, if_false, Prod.mk.injEq, Result.ok.injEq] at h2
        exact ⟨by omega, h2.1.symm⟩

theorem setVarFiles_ok (x : Extern) (c c' : Out) (d d' : Doc) (req : OutRequest)
    (h : c.setVarFiles x d req = (.ok d', c')) :
    (req.Params.VarFiles = [] ∧ d' = d ∧ c' = c) ∨
    (req.Params.VarFiles ≠ [] ∧ ∃ varFiles,
      Out.varFilesLoop x c req.Params.VarFiles [] = (.ok varFiles, c') ∧
      d' = d.Set (.arr (varFiles.map JVal.str)) "terraform_var_files") := by
  unfold Out.setVarFiles at h
  by_cases hr : req.Params.VarFiles = []
  · left
    simp only [hr, List.length_nil, gt_iff_lt, lt_self_iff_false, if_false, Prod.mk.injEq,
      Result.ok.injEq] at h
    exact ⟨hr, h.1.symm, h.2.symm⟩
  · right
    have hl : req.Params.VarFiles.length > 0 := List.length_pos.mpr hr
    simp only [hl, if_true] at h
    obtain ⟨vf, c0, h1, h2⟩ := andThen_ok _ _ _ _ h
    simp only [Prod.mk.injEq, Result.ok.injEq] at h2
    refine ⟨hr, vf, ?_, h2.1.symm⟩
    rw [h1, h2.2]

/-- Success of `injectExtraVars` unfolded into the success of each of its
blocks, in source order. -/
theorem injectExtraVars_ok (x : Extern) (cmd c' : Out) (d doc : Doc) (req : OutRequest)
    (h : cmd.injectExtraVars x d req = (.ok doc, c')) :
    ∃ context c1 workspace c2 d3 c3 d4 c4 d5 w,
      cmd.parseField x req.Params.Context = (.ok context, c1) ∧
      c1.parseField x req.Params.Workspace = (.ok workspace, c2) ∧
      c2.setReleaseVersion x
        ((d.Set (.str context) "context").Set
          (.str (if workspace = "" then context else workspace)) "terraform_workspace")
        req = (.ok d3, c3) ∧
      c3.setTerraformVars x d3 req = (.ok d4, c4) ∧
      c4.setVarFiles x d4 req = (.ok d5, c') ∧
      c'.args.get? 1 = some w ∧
      doc = ((d5.Set (.str (pathJoin w req.Params.Dir)) "terraform_path").Set
              (.bool req.Params.PlanOnly) "plan_only").Set
              (.bool req.Params.Destroy) "destroy" := by
  unfold Out.injectExtraVars at h
  obtain ⟨context, c1, h1, k1⟩ := andThen_ok _ _ _ _ h
  dsimp only at k1
  obtain ⟨workspace, c2, h2, k2⟩ := andThen_ok _ _ _ _ k1
  have h2 := wrapErr_ok _ _ _ _ h2
  obtain ⟨d3, c3, h3, k3⟩ := andThen_ok _ _ _ _ k2
  obtain ⟨d4, c4, h4, k4⟩ := andThen_ok _ _ _ _ k3
  obtain ⟨d5, c5, h5, k5⟩ := andThen_ok _ _ _ _ k4
  obtain ⟨w, c6, h6, k6⟩ := andThen_ok _ _ _ _ k5
  obtain ⟨hw, hc⟩ := arg1_ok _ _ _ h6
  simp only [Prod.mk.injEq, Result.ok.injEq] at k6
  obtain ⟨hd, hc'⟩ := k6
  rw [hc] at hc'
  rw [hc'] at h5 hw
  exact ⟨context, c1, workspace, c2, d3, c3, d4, c4, d5, w, h1, h2, h3, h4, h5, hw, hd.symm⟩

theorem setReleaseVersion_get (x : Extern) (c c' : Out) (d d' : Doc) (req : OutRequest)
    (h : c.setReleaseVersion x d req = (.ok d', c')) (k : String)
    (hk : k ≠ "release_version") : d'.get k = d.get k := by
  rcases setReleaseVersion_ok x c c' d d' req h with ⟨_, hd, _⟩ | ⟨_, v, _, hd⟩
  · rw [hd]
  · rw [hd, Doc.get_Set_ne _ _ _ _ hk]

theorem setTerraformVars_get (x : Extern) (c c' : Out) (d d' : Doc) (req : OutRequest)
    (h : c.setTerraformVars x d req = (.ok d', c')) (k : String)
    (hk : k ≠ "terraform_vars") : d'.get k = d.get k := by
  rcases setTerraformVars_ok x c c' d d' req h with ⟨_, hd, _⟩ | ⟨_, t, _, ⟨_, hd⟩ | ⟨_, j, _, hd⟩⟩
  · rw [hd]
  · rw [hd]
  · rw [hd, Doc.get_Set_ne _ _ _ _ hk]

theorem setVarFiles_get (x : Extern) (c c' : Out) (d d' : Doc) (req : OutRequest)
    (h : c.setVarFiles x d req = (.ok d', c')) (k : String)
    (hk : k ≠ "terraform_var_files") : d'.get k = d.get k := by
  rcases setVarFiles_ok x c c' d d' req h with ⟨_, hd, _⟩ | ⟨_, v, _, hd⟩
  · rw [hd]
  · rw [hd, Doc.get_Set_ne _ _ _ _ hk]

/-- Keys that `injectExtraVars` never writes keep the value they had. -/
theorem injectExtraVars_get_other (x : Extern) (cmd c' : Out) (d doc : Doc) (req : OutRequest)
    (h : cmd.injectExtraVars x d req = (.ok doc, c')) (k : String)
    (h1 : k ≠ "context") (h2 : k ≠ "terraform_workspace") (h3 : k ≠ "release_version")
    (h4 : k ≠ "terraform_vars") (h5 : k ≠ "terraform_var_files") (h6 : k ≠ "terraform_path")
    (h7 : k ≠ "plan_only") (h8 : k ≠ "destroy") : doc.get k = d.get k := by
  obtain ⟨context, c1, workspace, c2, d3, c3, d4, c4, d5, w, _, _, e3, e4, e5, _, hd⟩ :=
    injectExtraVars_ok x cmd c' d doc req h
  rw [hd, Doc.get_Set_ne _ _ _ _ h8, Doc.get_Set_ne _ _ _ _ h7, Doc.get_Set_ne _ _ _ _ h6,
    setVarFiles_get x _ _ _ _ req e5 k h5, setTerraformVars_get x _ _ _ _ req e4 k h4,
    setReleaseVersion_get x _ _ _ _ req e3 k h3, Doc.get_Set_ne _ _ _ _ h2,
    Doc.get_Set_ne _ _ _ _ h1]

/-! ## What `ansiblePlaybookCmd` does on success -/

theorem mergeEnvs_ok (x : Extern) (envs : GoMap) :
    ∀ (c c' : Out) (a a' : Ansible), Out.mergeEnvs x c envs a = (.ok a', c') →
      a'.extraVars = a.extraVars ∧ a'.args = a.args ∧ a'.playbook = a.playbook ∧
      ∃ extra, a'.envs = a.envs ++ extra := by
  induction envs with
  | nil =>
    intro c c' a a' h
    simp only [Out.mergeEnvs, Prod.mk.injEq, Result.ok.injEq] at h
    rw [← h.1]
    exact ⟨rfl, rfl, rfl, [], by simp⟩
  | cons kv rest ih =>
    intro c c' a a' h
    obtain ⟨k, v⟩ := kv
    simp only [Out.mergeEnvs] at h
    obtain ⟨parsed, c0, _, h2⟩ := andThen_ok _ _ _ _ h
    obtain ⟨e1, e2, e3, extra, e4⟩ := ih _ _ _ _ h2
    refine ⟨e1, e2, e3, (k ++ "=" ++ parsed) :: extra, ?_⟩
    rw [e4]
    simp

theorem Envs_snd_Params (order : GoMap → GoMap) (r : OutRequest) :
    (r.Envs order).2.Params = r.Params := by
  unfold OutRequest.Envs
  cases r.Source.Envs <;> rfl

theorem Envs_snd_Storage (order : GoMap → GoMap) (r : OutRequest) :
    (r.Envs order).2.Source.Storage = r.Source.Storage := by
  unfold OutRequest.Envs
  cases r.Source.Envs <;> rfl

/-- Success of `ansiblePlaybookCmd` unfolded into the success of each of its
steps, in source order. -/
theorem ansiblePlaybookCmd_ok (x : Extern) (cmd c' : Out) (req req' : OutRequest)
    (a : Ansible) (h : cmd.ansiblePlaybookCmd x req = (.ok a, req', c')) :
    req.Validate = none ∧
    ∃ c1 w a1 c4 doc,
      cmd.computeInput x (req.assignFallback cmd.env.Team cmd.env.Pipeline) = (.ok (), c1) ∧
      c1.args.get? 1 = some w ∧
      Out.mergeEnvs x { c1 with evals := c1.evals ++ [Event.newAnsible] }
        (x.rangeOrder ((req.assignFallback cmd.env.Team cmd.env.Pipeline).Envs x.rangeOrder).1)
        (NewAnsible x (req.assignFallback cmd.env.Team cmd.env.Pipeline).Source c1.env
          "/opt/ansible/out.yml" w) = (.ok a1, c4) ∧
      c4.injectExtraVars x a1.extraVars
        ((req.assignFallback cmd.env.Team cmd.env.Pipeline).Envs x.rangeOrder).2
        = (.ok doc, c') ∧
      a = { a1 with extraVars := doc } ∧
      req' = ((req.assignFallback cmd.env.Team cmd.env.Pipeline).Envs x.rangeOrder).2 := by
  unfold Out.ansiblePlaybookCmd at h
  split at h
  · simp at h
  · rename_i hv
    refine ⟨hv, ?_⟩
    dsimp only at h
    split at h
    · simp at h
    · simp at h
    · rename_i u c1 h1
      unfold Out.buildCommand at h
      split at h
      · simp at h
      · simp at h
      · rename_i w c2 h2
        obtain ⟨hw, hc⟩ := arg1_ok _ _ _ h2
        rw [hc] at h
        simp only [Prod.mk.injEq] at h
        obtain ⟨hr1, hreq, hr2⟩ := h
        have hr : andThen (Out.mergeEnvs x { c1 with evals := c1.evals ++ [Event.newAnsible] }
            (x.rangeOrder ((req.assignFallback cmd.env.Team cmd.env.Pipeline).Envs x.rangeOrder).1)
            (NewAnsible x (req.assignFallback cmd.env.Team cmd.env.Pipeline).Source c1.env
              "/opt/ansible/out.yml" w)) (fun ansible c4 =>
              andThen (wrapErr "error writing ansible extra vars: "
                (c4.injectExtraVars x ansible.extraVars
                  ((req.assignFallback cmd.env.Team cmd.env.Pipeline).Envs x.rangeOrder).2))
                fun extraVars c5 => (.ok { ansible with extraVars := extraVars }, c5))
            = (.ok a, c') := Prod.ext hr1 hr2
        obtain ⟨a1, c4, e1, k1⟩ := andThen_ok _ _ _ _ hr
        obtain ⟨doc, c5, e2, k2⟩ := andThen_ok _ _ _ _ k1
        have e2 := wrapErr_ok _ _ _ _ e2
        simp only [Prod.mk.injEq, Result.ok.injEq] at k2
        rw [k2.2] at e2
        exact ⟨c1, w, a1, c4, doc, h1, hw, e1, e2, k2.1.symm, hreq.symm⟩

theorem computeInput_ok (x : Extern) (cmd c1 : Out) (req : OutRequest)
    (h : cmd.computeInput x req = (.ok (), c1)) : c1.env = cmd.env ∧ c1.args = cmd.args := by
  unfold Out.computeInput at h
  split at h
  · unfold Out.parseMapping at h
    dsimp only at h
    split at h
    · rename_i m c hm
      simp only [Prod.mk.injEq, Result.ok.injEq, true_and] at h
      rw [← h]
      split at hm
      · simp at hm
      · split at hm
        · simp at hm
        · simp only [Prod.mk.injEq, Result.ok.injEq] at hm
          rw [← hm.2]
          exact ⟨rfl, rfl⟩
    · simp at h
    · simp at h
  · simp only [Prod.mk.injEq, true_and] at h
    rw [← h]
    exact ⟨rfl, rfl⟩

/-- The nine keys `NewAnsible` writes, read back from its document. -/
theorem NewAnsible_get (x : Extern) (src : Source) (env : Environment) (playbook w : String) :
    (NewAnsible x src env playbook w).extraVars.get "concourse_atc_external_url"
      = some (.str env.ATCExternalURL) ∧
    (NewAnsible x src env playbook w).extraVars.get "concourse_build_id" = some (.str env.ID) ∧
    (NewAnsible x src env playbook w).extraVars.get "concourse_build_job" = some (.str env.Job) ∧
    (NewAnsible x src env playbook w).extraVars.get "concourse_build_name"
      = some (.str env.Name) ∧
    (NewAnsible x src env playbook w).extraVars.get "concourse_build_pipeline"
      = some (.str env.Pipeline) ∧
    (NewAnsible x src env playbook w).extraVars.get "concourse_build_team"
      = some (.str env.Team) ∧
    (NewAnsible x src env playbook w).extraVars.get "component" = some (.str src.Component) ∧
    (NewAnsible x src env playbook w).extraVars.get "storage" = some src.Storage.toJSON ∧
    (NewAnsible x src env playbook w).extraVars.get "workdir" = some (.str w) := by
  simp only [NewAnsible]
  refine ⟨?_, ?_, ?_, ?_, ?_, ?_, ?_, ?_, ?_⟩ <;>
    simp [Doc.Set, Doc.erase, Doc.get]

/-- A key that `injectExtraVars` never writes holds, in the document of the
command `ansiblePlaybookCmd` returns, the value `NewAnsible` gave it. -/
theorem ansiblePlaybookCmd_keeps (x : Extern) (cmd c' : Out) (req req' : OutRequest)
    (a : Ansible) (h : cmd.ansiblePlaybookCmd x req = (.ok a, req', c')) (k : String)
    (h1 : k ≠ "context") (h2 : k ≠ "terraform_workspace") (h3 : k ≠ "release_version")
    (h4 : k ≠ "terraform_vars") (h5 : k ≠ "terraform_var_files") (h6 : k ≠ "terraform_path")
    (h7 : k ≠ "plan_only") (h8 : k ≠ "destroy") :
    ∃ w, cmd.args.get? 1 = some w ∧
      a.extraVars.get k =
        (NewAnsible x (req.assignFallback cmd.env.Team cmd.env.Pipeline).Source cmd.env
          "/opt/ansible/out.yml" w).extraVars.get k := by
  obtain ⟨_, c1, w, a1, c4, doc, e1, e2, e3, e4, e5, _⟩ :=
    ansiblePlaybookCmd_ok x cmd c' req req' a h
  obtain ⟨henv, hargs⟩ := computeInput_ok x cmd c1 _ e1
  obtain ⟨hdoc, _⟩ := mergeEnvs_ok x _ _ _ _ _ e3
  refine ⟨w, by rw [← hargs]; exact e2, ?_⟩
  rw [e5]
  show doc.get k = _
  rw [injectExtraVars_get_other x c4 c' a1.extraVars doc _ e4 k h1 h2 h3 h4 h5 h6 h7 h8, hdoc,
    henv]

/-! ## Fallback values (C1, C2) -/

/-- C1. After `AssignFallbackValues(team, pipeline)` the Component equals
`pipeline` when it was empty and its previous value otherwise; whenever
`ansiblePlaybookCmd` returns a command, the key `component` of its extra-vars
document holds that post-fallback Component. -/
theorem component_fallback (s : Source) (team pipeline : String) (x : Extern) (cmd c' : Out)
    (req req' : OutRequest) (a : Ansible) :
    (s.Component = "" → (s.AssignFallbackValues team pipeline).Component = pipeline) ∧
    (s.Component ≠ "" → (s.AssignFallbackValues team pipeline).Component = s.Component) ∧
    (cmd.ansiblePlaybookCmd x req = (.ok a, req', c') →
      a.extraVars.get "component" = some (.str
        (req.Source.AssignFallbackValues cmd.env.Team cmd.env.Pipeline).Component)) := by
  refine ⟨?_, ?_, ?_⟩
  · intro h
    unfold Source.AssignFallbackValues
    simp only [h, if_true]
    split <;> rfl
  · intro h
    unfold Source.AssignFallbackValues
    simp only [h, if_false]
    split <;> rfl
  · intro h
    obtain ⟨w, _, hk⟩ := ansiblePlaybookCmd_keeps x cmd c' req req' a h "component"
      (by decide) (by decide) (by decide) (by decide) (by decide) (by decide) (by decide)
      (by decide)
    rw [hk, (NewAnsible_get x _ cmd.env _ w).2.2.2.2.2.2.1]
    rfl

/-- C1 at the put test's "component fallback to pipeline" case: the source has no
component, the pipeline is `example-component`. -/
theorem component_fallback_witness :
    sampleSource.Component = "" ∧
    (sampleSource.AssignFallbackValues "sre" "example-component").Component
      = "example-component" ∧
    sampleOut.ansiblePlaybookCmd plainExtern sampleRequest
      = (.ok sampleAnsible, sampleRequestAfter, sampleOutAfter) ∧
    sampleAnsible.extraVars.get "component" = some (.str "example-component") :=
  ⟨rfl,
   (component_fallback sampleSource "sre" "example-component" plainExtern sampleOut
      sampleOutAfter sampleRequest sampleRequestAfter sampleAnsible).1 rfl,
   rfl,
   (component_fallback sampleSource "sre" "example-component" plainExtern sampleOut
      sampleOutAfter sampleRequest sampleRequestAfter sampleAnsible).2.2 rfl⟩

/-- C2. After `AssignFallbackValues(team, pipeline)` an empty Storage.Key has
become `team/c/concourse-terraform-resource/version.tgz`, where `c` is the
post-fallback Component (the pipeline name when Component was empty, the
configured Component otherwise); a non-empty Storage.Key is unchanged. -/
theorem storage_key_fallback (s : Source) (team pipeline : String) :
    (s.Storage.Key = "" →
      (s.AssignFallbackValues team pipeline).Storage.Key
        = team ++ "/" ++ (if s.Component = "" then pipeline else s.Component)
            ++ "/concourse-terraform-resource/version.tgz" ∧
      (s.AssignFallbackValues team pipeline).Component
        = (if s.Component = "" then pipeline else s.Component)) ∧
    (s.Storage.Key ≠ "" → (s.AssignFallbackValues team pipeline).Storage.Key = s.Storage.Key) := by
  refine ⟨?_, ?_⟩
  · intro h
    unfold Source.AssignFallbackValues
    by_cases hc : s.Component = "" <;> simp [hc, h]
  · intro h
    unfold Source.AssignFallbackValues
    by_cases hc : s.Component = "" <;> simp [hc, h]

/-- C2 at the put test's source: no component and no storage key, team `sre`,
pipeline `example-component`. -/
theorem storage_key_fallback_witness :
    sampleSource.Storage.Key = "" ∧
    (sampleSource.AssignFallbackValues "sre" "example-component").Storage.Key
      = "sre/example-component/concourse-terraform-resource/version.tgz" :=
  ⟨rfl, ((storage_key_fallback sampleSource "sre" "example-component").1 rfl).1⟩

/-! ## Validation failure (C3) -/

theorem Source_Validate_some (s : Source)
    (h : s.Storage.AWSAccessKeyID = "" ∨ s.Vault.Addr = "") : ∃ e, s.Validate = some e := by
  unfold Source.Validate
  by_cases ha : s.Vault.Addr = ""
  · simp [VaultSource.Validate, ha]
  · have hk : s.Storage.AWSAccessKeyID = "" := h.resolve_right ha
    cases hv : s.Vault.Validate with
    | some e => exact ⟨_, rfl⟩
    | none => simp [Storage.Validate, hk]

theorem OutParams_Validate_some (p : OutParams) (h : p.Context = "" ∨ p.Dir = "") :
    ∃ e, p.Validate = some e := by
  unfold OutParams.Validate
  by_cases hc : p.Context = ""
  · simp [hc]
  · simp [hc, h.resolve_left hc]

/-- A request with an empty `dir` fails validation and `ansiblePlaybookCmd`
returns the wrapped error, the request and the executor untouched. -/
theorem invalid_request_dir (x : Extern) (cmd : Out) (req : OutRequest)
    (h : req.Params.Dir = "") :
    ∃ e, req.Validate = some e ∧
      cmd.ansiblePlaybookCmd x req = (.err ("invalid put request: " ++ e), req, cmd) := by
  have hv : ∃ e, req.Validate = some e := by
    unfold OutRequest.Validate
    cases hs : req.Source.Validate with
    | some e => exact ⟨_, rfl⟩
    | none =>
      obtain ⟨e, he⟩ := OutParams_Validate_some req.Params (Or.inr h)
      exact ⟨"invalid params: " ++ e, by simp [he]⟩
  obtain ⟨e, he⟩ := hv
  refine ⟨e, he, ?_⟩
  unfold Out.ansiblePlaybookCmd
  rw [he]

/-- C3. A put request whose storage aws_access_key_id, vault addr, params context
or params dir is empty fails `OutRequest.Validate`, whatever the other fields
hold; `ansiblePlaybookCmd` then returns that error (wrapped as
`invalid put request: ...`) and no command, leaves the request and the executor
as they were, and so has made no evaluator call and built no document. -/
theorem invalid_request_rejected (x : Extern) (cmd : Out) (req : OutRequest)
    (h : req.Source.Storage.AWSAccessKeyID = "" ∨ req.Source.Vault.Addr = "" ∨
      req.Params.Context = "" ∨ req.Params.Dir = "") :
    ∃ e, req.Validate = some e ∧
      cmd.ansiblePlaybookCmd x req = (.err ("invalid put request: " ++ e), req, cmd) ∧
      (cmd.ansiblePlaybookCmd x req).2.2.evals = cmd.evals := by
  have hv : ∃ e, req.Validate = some e := by
    unfold OutRequest.Validate
    cases hs : req.Source.Validate with
    | some e => exact ⟨_, rfl⟩
    | none =>
      have hp : req.Params.Context = "" ∨ req.Params.Dir = "" := by
        rcases h with h | h | h | h
        · obtain ⟨e, he⟩ := Source_Validate_some req.Source (Or.inl h)
          rw [hs] at he
          cases he
        · obtain ⟨e, he⟩ := Source_Validate_some req.Source (Or.inr h)
          rw [hs] at he
          cases he
        · exact Or.inl h
        · exact Or.inr h
      obtain ⟨e, he⟩ := OutParams_Validate_some req.Params hp
      exact ⟨"invalid params: " ++ e, by simp [he]⟩
  obtain ⟨e, he⟩ := hv
  have hr : cmd.ansiblePlaybookCmd x req = (.err ("invalid put request: " ++ e), req, cmd) := by
    unfold Out.ansiblePlaybookCmd
    rw [he]
  exact ⟨e, he, hr, by rw [hr]⟩

/-- C3 at a request that is valid except for its empty `dir`. -/
theorem invalid_request_rejected_witness :
    noDirRequest.Params.Dir = "" ∧
    ∃ e, noDirRequest.Validate = some e ∧
      sampleOut.ansiblePlaybookCmd plainExtern noDirRequest
        = (.err ("invalid put request: " ++ e), noDirRequest, sampleOut) ∧
      (sampleOut.ansiblePlaybookCmd plainExtern noDirRequest).2.2.evals = sampleOut.evals :=
  ⟨rfl, invalid_request_rejected plainExtern sampleOut noDirRequest (Or.inr (Or.inr (Or.inr rfl)))⟩

/-! ## Workspace, vars mapping and path (C4, C5, C6) -/

theorem advances_of_eq {α : Type} (c c' : Out) (r : Result α × Out) (v : Result α)
    (h : r = (v, c')) (ha : c.advances r.2) : c.advances c' := by
  rw [h] at ha
  exact ha

/-- The keys `context` and `terraform_workspace` of the document
`injectExtraVars` returns. -/
theorem injectExtraVars_get_workspace (x : Extern) (cmd c' : Out) (d doc : Doc)
    (req : OutRequest) (h : cmd.injectExtraVars x d req = (.ok doc, c')) :
    ∃ context c1 workspace c2,
      cmd.parseField x req.Params.Context = (.ok context, c1) ∧
      c1.parseField x req.Params.Workspace = (.ok workspace, c2) ∧
      doc.get "context" = some (.str context) ∧
      doc.get "terraform_workspace"
        = some (.str (if workspace = "" then context else workspace)) := by
  obtain ⟨context, c1, workspace, c2, d3, c3, d4, c4, d5, w, e1, e2, e3, e4, e5, _, hd⟩ :=
    injectExtraVars_ok x cmd c' d doc req h
  refine ⟨context, c1, workspace, c2, e1, e2, ?_, ?_⟩
  · rw [hd, Doc.get_Set_ne _ _ _ _ (by decide), Doc.get_Set_ne _ _ _ _ (by decide),
      Doc.get_Set_ne _ _ _ _ (by decide),
      setVarFiles_get x _ _ _ _ req e5 _ (by decide),
      setTerraformVars_get x _ _ _ _ req e4 _ (by decide),
      setReleaseVersion_get x _ _ _ _ req e3 _ (by decide),
      Doc.get_Set_ne _ _ _ _ (by decide), Doc.get_Set_same]
  · rw [hd, Doc.get_Set_ne _ _ _ _ (by decide), Doc.get_Set_ne _ _ _ _ (by decide),
      Doc.get_Set_ne _ _ _ _ (by decide),
      setVarFiles_get x _ _ _ _ req e5 _ (by decide),
      setTerraformVars_get x _ _ _ _ req e4 _ (by decide),
      setReleaseVersion_get x _ _ _ _ req e3 _ (by decide), Doc.get_Set_same]

/-- C4. In the document `injectExtraVars` builds, `terraform_workspace` is the
evaluated Params.Workspace when that evaluation is non-empty, and otherwise the
value stored under `context`, which is the evaluated Params.Context; nothing is
assumed on whether either evaluation is empty. -/
theorem workspace_falls_back_to_context (x : Extern) (cmd c' : Out) (d doc : Doc)
    (req : OutRequest) (h : cmd.injectExtraVars x d req = (.ok doc, c')) :
    ∃ context c1 workspace c2,
      cmd.parseField x req.Params.Context = (.ok context, c1) ∧
      c1.parseField x req.Params.Workspace = (.ok workspace, c2) ∧
      doc.get "context" = some (.str context) ∧
      (workspace ≠ "" → doc.get "terraform_workspace" = some (.str workspace)) ∧
      (workspace = "" → doc.get "terraform_workspace" = doc.get "context") := by
  obtain ⟨context, c1, workspace, c2, e1, e2, hc, hw⟩ :=
    injectExtraVars_get_workspace x cmd c' d doc req h
  refine ⟨context, c1, workspace, c2, e1, e2, hc, ?_, ?_⟩
  · intro hne
    rw [hw, if_neg hne]
  · intro he
    rw [hw, if_pos he, hc]

/-- C4 on the four combinations of an empty or non-empty workspace and context
(plain texts, which evaluate to themselves). -/
theorem workspace_falls_back_to_context_witness :
    (sampleOut.injectExtraVars plainExtern [] (requestWith "foo" "ws")
        = (.ok (docWith "foo" "ws"), outWith "foo" "ws") ∧
      (docWith "foo" "ws").get "terraform_workspace" = some (.str "ws")) ∧
    (sampleOut.injectExtraVars plainExtern [] (requestWith "" "ws")
        = (.ok (docWith "" "ws"), outWith "" "ws") ∧
      (docWith "" "ws").get "terraform_workspace" = some (.str "ws")) ∧
    (sampleOut.injectExtraVars plainExtern [] (requestWith "foo" "")
        = (.ok (docWith "foo" "foo"), outWith "foo" "") ∧
      (docWith "foo" "foo").get "terraform_workspace" = (docWith "foo" "foo").get "context") ∧
    (sampleOut.injectExtraVars plainExtern [] (requestWith "" "")
        = (.ok (docWith "" ""), outWith "" "") ∧
      (docWith "" "").get "terraform_workspace" = (docWith "" "").get "context") := by
  refine ⟨⟨rfl, ?_⟩, ⟨rfl, ?_⟩, ⟨rfl, ?_⟩, ⟨rfl, ?_⟩⟩
  · obtain ⟨context, c1, workspace, c2, _, e2, _, hne, _⟩ :=
      workspace_falls_back_to_context plainExtern sampleOut (outWith "foo" "ws") []
        (docWith "foo" "ws") (requestWith "foo" "ws") rfl
    have hw : workspace = "ws" := by
      simp only [Out.parseField, plainExtern, Prod.mk.injEq, Result.ok.injEq] at e2
      exact e2.1.symm.trans rfl
    rw [hw] at hne
    exact hne (by decide)
  · obtain ⟨context, c1, workspace, c2, _, e2, _, hne, _⟩ :=
      workspace_falls_back_to_context plainExtern sampleOut (outWith "" "ws") []
        (docWith "" "ws") (requestWith "" "ws") rfl
    have hw : workspace = "ws" := by
      simp only [Out.parseField, plainExtern, Prod.mk.injEq, Result.ok.injEq] at e2
      exact e2.1.symm.trans rfl
    rw [hw] at hne
    exact hne (by decide)
  · obtain ⟨context, c1, workspace, c2, _, e2, _, _, he⟩ :=
      workspace_falls_back_to_context plainExtern sampleOut (outWith "foo" "") []
        (docWith "foo" "foo") (requestWith "foo" "") rfl
    have hw : workspace = "" := by
      simp only [Out.parseField, plainExtern, Prod.mk.injEq, Result.ok.injEq] at e2
      exact e2.1.symm.trans rfl
    exact he hw
  · obtain ⟨context, c1, workspace, c2, _, e2, _, _, he⟩ :=
      workspace_falls_back_to_context plainExtern sampleOut (outWith "" "") []
        (docWith "" "") (requestWith "" "") rfl
    have hw : workspace = "" := by
      simp only [Out.parseField, plainExtern, Prod.mk.injEq, Result.ok.injEq] at e2
      exact e2.1.symm.trans rfl
    exact he hw

/-- C5. `NewAnsible` leaves `terraform_vars` absent and, with an empty
Params.VarsMapping, `injectExtraVars` does not write it, so it is absent from the
document. With a non-empty VarsMapping the mapping is evaluated; when its output
is non-empty, `terraform_vars` holds the JSON value `gabs.ParseJSON` parsed from
that output, not the output text. -/
theorem terraform_vars_parsed (x : Extern) (cmd c' : Out) (d doc : Doc) (req : OutRequest)
    (h : cmd.injectExtraVars x d req = (.ok doc, c')) :
    (∀ src env playbook w,
      (NewAnsible x src env playbook w).extraVars.get "terraform_vars" = none) ∧
    (req.Params.VarsMapping = "" → doc.get "terraform_vars" = d.get "terraform_vars") ∧
    (req.Params.VarsMapping ≠ "" →
      ∃ c3 c4 tfvars, cmd.advances c3 ∧
        c3.parseMapping x req.Params.VarsMapping = (.ok tfvars, c4) ∧
        ((tfvars.Get 0).length > 0 →
          ∃ j, x.ParseJSON (tfvars.Get 0) = .ok j ∧ doc.get "terraform_vars" = some j)) := by
  obtain ⟨context, c1, workspace, c2, d3, c3, d4, c4, d5, w, e1, e2, e3, e4, e5, _, hd⟩ :=
    injectExtraVars_ok x cmd c' d doc req h
  have hdoc : doc.get "terraform_vars" = d4.get "terraform_vars" := by
    rw [hd, Doc.get_Set_ne _ _ _ _ (by decide), Doc.get_Set_ne _ _ _ _ (by decide),
      Doc.get_Set_ne _ _ _ _ (by decide), setVarFiles_get x _ _ _ _ req e5 _ (by decide)]
  have hd3 : d3.get "terraform_vars" = d.get "terraform_vars" := by
    rw [setReleaseVersion_get x _ _ _ _ req e3 _ (by decide),
      Doc.get_Set_ne _ _ _ _ (by decide), Doc.get_Set_ne _ _ _ _ (by decide)]
  refine ⟨?_, ?_, ?_⟩
  · intro src env playbook w
    simp [NewAnsible, Doc.Set, Doc.erase, Doc.get]
  · intro hv
    rcases setTerraformVars_ok x c3 c4 d3 d4 req e4 with ⟨_, hd4, _⟩ | ⟨hne, _⟩
    · rw [hdoc, hd4, hd3]
    · exact absurd hv hne
  · intro hv
    rcases setTerraformVars_ok x c3 c4 d3 d4 req e4 with ⟨he, _⟩ | ⟨_, tfvars, hpm, hcase⟩
    · exact absurd he hv
    · have a1 := advances_of_eq cmd c1 _ _ e1 (parseField_advances x cmd _)
      have a2 := advances_of_eq c1 c2 _ _ e2 (parseField_advances x c1 _)
      have a3 := advances_of_eq c2 c3 _ _ e3 (setReleaseVersion_advances x c2 _ req)
      refine ⟨c3, c4, tfvars, advances_trans _ _ _ (advances_trans _ _ _ a1 a2) a3, hpm, ?_⟩
      intro hpos
      rcases hcase with ⟨hz, _⟩ | ⟨_, j, hj, hd4⟩
      · omega
      · exact ⟨j, hj, by rw [hdoc, hd4, Doc.get_Set_same]⟩

/-- C5 on a request whose vars mapping yields an object: `terraform_vars` holds
the parsed object. -/
theorem terraform_vars_parsed_witness :
    sampleOut.injectExtraVars varsExtern [] varsRequest = (.ok varsDoc, varsOutAfter) ∧
    varsRequest.Params.VarsMapping ≠ "" ∧
    varsDoc.get "terraform_vars" = some (.obj [("region", .str "us-east-2")]) := by
  refine ⟨rfl, by decide, ?_⟩
  obtain ⟨c3, c4, tfvars, _, hpm, hpos⟩ :=
    (terraform_vars_parsed varsExtern sampleOut varsOutAfter [] varsDoc varsRequest rfl).2.2
      (by decide)
  have ht : tfvars = ["\x7b\"region\":\"us-east-2\"\x7d"] := by
    simp only [Out.parseMapping, varsExtern, Prod.mk.injEq, Result.ok.injEq] at hpm
    exact hpm.1.symm
  rw [ht] at hpos
  obtain ⟨j, hj, hget⟩ := hpos (by decide)
  have hj' : j = .obj [("region", .str "us-east-2")] := by
    have h2 : varsExtern.ParseJSON "\x7b\"region\":\"us-east-2\"\x7d"
        = .ok (.obj [("region", .str "us-east-2")]) := rfl
    have h3 : varsExtern.ParseJSON (Message.Get ["\x7b\"region\":\"us-east-2\"\x7d"] 0)
        = .ok (.obj [("region", .str "us-east-2")]) := h2
    rw [h3] at hj
    exact (Except.ok.inj hj).symm
  rw [hget, hj']

theorem assignFallback_Params (req : OutRequest) (team pipeline : String) :
    (req.assignFallback team pipeline).Params = req.Params := rfl

/-- C6, as the code has it. `injectExtraVars` sets `terraform_path` to
`path.Join(w, d)` for the working-directory argument `w` and every Params.Dir
`d`, the empty one included. A put reaches `injectExtraVars` only with a
non-empty `d`: whenever `ansiblePlaybookCmd` returns a command, `d` is non-empty
and `terraform_path` is `path.Join(w, d)`; with an empty `d` it returns an error
and no document. -/
theorem terraform_path_joined (x : Extern) (cmd c' : Out) (d doc : Doc)
    (req req' : OutRequest) (a : Ansible) :
    (cmd.injectExtraVars x d req = (.ok doc, c') →
      ∃ w, cmd.args.get? 1 = some w ∧
        doc.get "terraform_path" = some (.str (pathJoin w req.Params.Dir))) ∧
    (cmd.ansiblePlaybookCmd x req = (.ok a, req', c') →
      req.Params.Dir ≠ "" ∧
      ∃ w, cmd.args.get? 1 = some w ∧
        a.extraVars.get "terraform_path" = some (.str (pathJoin w req.Params.Dir))) ∧
    (req.Params.Dir = "" → ∃ e, cmd.ansiblePlaybookCmd x req = (.err e, req, cmd)) := by
  have inj : ∀ (c0 c1 : Out) (d0 d1 : Doc) (r : OutRequest),
      c0.injectExtraVars x d0 r = (.ok d1, c1) →
      ∃ w, c0.args.get? 1 = some w ∧
        d1.get "terraform_path" = some (.str (pathJoin w r.Params.Dir)) := by
    intro c0 c1 d0 d1 r h
    obtain ⟨context, k1, workspace, k2, d3, k3, d4, k4, d5, w, _, _, _, _, _, hw, hd⟩ :=
      injectExtraVars_ok x c0 c1 d0 d1 r h
    have hadv := advances_of_eq c0 c1 _ _ h (injectExtraVars_advances x c0 d0 r)
    refine ⟨w, by rw [← hadv.2.1]; exact hw, ?_⟩
    rw [hd, Doc.get_Set_ne _ _ _ _ (by decide), Doc.get_Set_ne _ _ _ _ (by decide),
      Doc.get_Set_same]
  refine ⟨inj cmd c' d doc req, ?_, ?_⟩
  · intro h
    obtain ⟨hv, c1, w, a1, c4, doc1, e1, e2, e3, e4, e5, _⟩ :=
      ansiblePlaybookCmd_ok x cmd c' req req' a h
    have hdir : req.Params.Dir ≠ "" := by
      intro he
      obtain ⟨e, hval, _⟩ := invalid_request_dir x cmd req he
      rw [hv] at hval
      cases hval
    obtain ⟨w1, hw1, hp⟩ := inj _ _ _ _ _ e4
    obtain ⟨_, hargs⟩ := computeInput_ok x cmd c1 _ e1
    have hadv := advances_of_eq _ c4 _ _ e3 (mergeEnvs_advances x _ _ _)
    have hc4 : c4.args = cmd.args := by rw [hadv.2.1]; exact hargs
    refine ⟨hdir, w1, by rw [← hc4]; exact hw1, ?_⟩
    rw [e5]
    show doc1.get "terraform_path" = _
    rw [hp, Envs_snd_Params, assignFallback_Params]
  · intro he
    obtain ⟨e, _, hr⟩ := invalid_request_dir x cmd req he
    exact ⟨_, hr⟩

/-- C6 at the put test's basic case: `dir` is `source/terraform`, the working
directory `/tmp/build/put`. -/
theorem terraform_path_joined_witness :
    sampleOut.ansiblePlaybookCmd plainExtern sampleRequest
      = (.ok sampleAnsible, sampleRequestAfter, sampleOutAfter) ∧
    sampleRequest.Params.Dir ≠ "" ∧
    ∃ w, sampleOut.args.get? 1 = some w ∧
      sampleAnsible.extraVars.get "terraform_path"
        = some (.str (pathJoin w sampleRequest.Params.Dir)) :=
  ⟨rfl,
   (terraform_path_joined plainExtern sampleOut sampleOutAfter [] [] sampleRequest
      sampleRequestAfter sampleAnsible).2.1 rfl⟩

/-- C6 as stated fails for the empty `dir`: the put with `dir` empty and
everything else valid is rejected by validation, so no command and no
`terraform_path` come out of it. -/
theorem terraform_path_empty_dir_counterexample :
    noDirRequest.Params.Dir = "" ∧
    sampleOut.ansiblePlaybookCmd plainExtern noDirRequest
      = (.err "invalid put request: invalid params: missing required parameter (dir)",
         noDirRequest, sampleOut) ∧
    ¬ ∃ a req' c', sampleOut.ansiblePlaybookCmd plainExtern noDirRequest = (.ok a, req', c') ∧
        a.extraVars.get "terraform_path" = some (.str (pathJoin "/tmp/build/put" "")) := by
  have h : sampleOut.ansiblePlaybookCmd plainExtern noDirRequest
      = (.err "invalid put request: invalid params: missing required parameter (dir)",
         noDirRequest, sampleOut) := rfl
  refine ⟨rfl, h, ?_⟩
  rintro ⟨a, req', c', hok, _⟩
  rw [h] at hok
  simp at hok

/-! ## Check (C7) -/

/-- C7. For a decoded check request and a standard output that takes the
response, `Check.Execute` succeeds; with a version present it writes the
one-element list holding that version's key and version_id, and with the version
absent or null it writes the empty list, which is an array and not null. -/
theorem check_echoes_version (req : CheckRequest) (write : JVal → Option String) :
    (∀ v, req.Version = some v →
      Check.versions req = some [v] ∧
      (write (.arr [.obj [("key", .str v.Key), ("version_id", .str v.VersionID)]]) = none →
        Check.Execute (.ok req) write
          = (.ok (), [.arr [.obj [("key", .str v.Key), ("version_id", .str v.VersionID)]]]))) ∧
    (req.Version = none →
      Check.versions req = some [] ∧
      (write (.arr []) = none → Check.Execute (.ok req) write = (.ok (), [.arr []]))) := by
  refine ⟨?_, ?_⟩
  · intro v hv
    have hvs : Check.versions req = some [v] := by
      unfold Check.versions
      rw [hv]
      rfl
    refine ⟨hvs, ?_⟩
    intro hw
    unfold Check.Execute
    simp only [hvs, encodeVersions, List.map, Version.toJSON, hw]
  · intro hv
    have hvs : Check.versions req = some [] := by
      unfold Check.versions
      rw [hv]
    refine ⟨hvs, ?_⟩
    intro hw
    unfold Check.Execute
    simp only [hvs, encodeVersions, List.map, hw]

/-- C7 on the payloads of the check test: a version `my-version.tgz`, and no
version. -/
theorem check_echoes_version_witness :
    Check.Execute
        (.ok { Source := sampleSource,
               Version := some { Key := "my-version.tgz",
                                 VersionID := "iQTUjehl1EsngSfrax_L.4wL4qcsHTYx" } })
        (fun _ => none)
      = (.ok (), [.arr [.obj [("key", .str "my-version.tgz"),
                              ("version_id", .str "iQTUjehl1EsngSfrax_L.4wL4qcsHTYx")]]]) ∧
    Check.Execute (.ok { Source := sampleSource, Version := none }) (fun _ => none)
      = (.ok (), [.arr []]) :=
  ⟨((check_echoes_version
        { Source := sampleSource,
          Version := some { Key := "my-version.tgz",
                            VersionID := "iQTUjehl1EsngSfrax_L.4wL4qcsHTYx" } }
        (fun _ => none)).1 _ rfl).2 rfl,
   ((check_echoes_version { Source := sampleSource, Version := none }
        (fun _ => none)).2 rfl).2 rfl⟩

/-! ## Ambient facts, storage and the command environment (C8, C9) -/

theorem AssignFallbackValues_Storage (s : Source) (team pipeline : String) :
    (s.AssignFallbackValues team pipeline).Storage =
      { s.Storage with
        Key := if s.Storage.Key = "" then
            team ++ "/" ++ (if s.Component = "" then pipeline else s.Component)
              ++ "/concourse-terraform-resource/version.tgz"
          else s.Storage.Key } := by
  unfold Source.AssignFallbackValues
  by_cases hc : s.Component = "" <;> by_cases hk : s.Storage.Key = "" <;> simp [hc, hk]

theorem AssignFallbackValues_Vault (s : Source) (team pipeline : String) :
    (s.AssignFallbackValues team pipeline).Vault = s.Vault := by
  unfold Source.AssignFallbackValues
  by_cases hc : s.Component = "" <;> by_cases hk : s.Storage.Key = "" <;> simp [hc, hk]

/-- C8. In the document of the command `ansiblePlaybookCmd` returns, the six
concourse keys hold the Environment fields, `workdir` holds the
working-directory argument and `storage` holds the storage sub-document after
the fallback: the configured sub-fields, with `key` replaced by the fallback key
when none was configured. `injectExtraVars` has overwritten none of them. -/
theorem ambient_facts_copied (x : Extern) (cmd c' : Out) (req req' : OutRequest) (a : Ansible)
    (h : cmd.ansiblePlaybookCmd x req = (.ok a, req', c')) :
    ∃ w, cmd.args.get? 1 = some w ∧
      a.extraVars.get "concourse_build_id" = some (.str cmd.env.ID) ∧
      a.extraVars.get "concourse_build_name" = some (.str cmd.env.Name) ∧
      a.extraVars.get "concourse_build_job" = some (.str cmd.env.Job) ∧
      a.extraVars.get "concourse_build_pipeline" = some (.str cmd.env.Pipeline) ∧
      a.extraVars.get "concourse_build_team" = some (.str cmd.env.Team) ∧
      a.extraVars.get "concourse_atc_external_url" = some (.str cmd.env.ATCExternalURL) ∧
      a.extraVars.get "workdir" = some (.str w) ∧
      a.extraVars.get "storage" = some (.obj
        [("aws_access_key_id", .str req.Source.Storage.AWSAccessKeyID),
         ("aws_secret_access_key", .str req.Source.Storage.AWSSecretAccessKey),
         ("bucket", .str req.Source.Storage.Bucket),
         ("key", .str (if req.Source.Storage.Key = "" then
            cmd.env.Team ++ "/"
              ++ (if req.Source.Component = "" then cmd.env.Pipeline else req.Source.Component)
              ++ "/concourse-terraform-resource/version.tgz"
            else req.Source.Storage.Key)),
         ("region", .str req.Source.Storage.Region)]) := by
  have keep := ansiblePlaybookCmd_keeps x cmd c' req req' a h
  obtain ⟨w, hw, k1⟩ := keep "concourse_build_id" (by decide) (by decide) (by decide)
    (by decide) (by decide) (by decide) (by decide) (by decide)
  have same : ∀ w2, cmd.args.get? 1 = some w2 → w2 = w := by
    intro w2 h2
    rw [hw] at h2
    exact (Option.some.inj h2).symm
  obtain ⟨w2, hw2, k2⟩ := keep "concourse_build_name" (by decide) (by decide) (by decide)
    (by decide) (by decide) (by decide) (by decide) (by decide)
  obtain ⟨w3, hw3, k3⟩ := keep "concourse_build_job" (by decide) (by decide) (by decide)
    (by decide) (by decide) (by decide) (by decide) (by decide)
  obtain ⟨w4, hw4, k4⟩ := keep "concourse_build_pipeline" (by decide) (by decide) (by decide)
    (by decide) (by decide) (by decide) (by decide) (by decide)
  obtain ⟨w5, hw5, k5⟩ := keep "concourse_build_team" (by decide) (by decide) (by decide)
    (by decide) (by decide) (by decide) (by decide) (by decide)
  obtain ⟨w6, hw6, k6⟩ := keep "concourse_atc_external_url" (by decide) (by decide)
    (by decide) (by decide) (by decide) (by decide) (by decide) (by decide)
  obtain ⟨w7, hw7, k7⟩ := keep "workdir" (by decide) (by decide) (by decide)
    (by decide) (by decide) (by decide) (by decide) (by decide)
  obtain ⟨w8, hw8, k8⟩ := keep "storage" (by decide) (by decide) (by decide)
    (by decide) (by decide) (by decide) (by decide) (by decide)
  refine ⟨w, hw, ?_, ?_, ?_, ?_, ?_, ?_, ?_, ?_⟩
  · rw [k1, (NewAnsible_get x _ cmd.env _ w).2.1]
  · rw [k2, (NewAnsible_get x _ cmd.env _ w2).2.2.2.1]
  · rw [k3, (NewAnsible_get x _ cmd.env _ w3).2.2.1]
  · rw [k4, (NewAnsible_get x _ cmd.env _ w4).2.2.2.2.1]
  · rw [k5, (NewAnsible_get x _ cmd.env _ w5).2.2.2.2.2.1]
  · rw [k6, (NewAnsible_get x _ cmd.env _ w6).1]
  · rw [k7, (NewAnsible_get x _ cmd.env _ w7).2.2.2.2.2.2.2.2, same w7 hw7]
  · rw [k8, (NewAnsible_get x _ cmd.env _ w8).2.2.2.2.2.2.2.1]
    show some (Storage.toJSON
      (req.Source.AssignFallbackValues cmd.env.Team cmd.env.Pipeline).Storage) = _
    rw [AssignFallbackValues_Storage]
    rfl

/-- C8 at the put test's basic case, where no storage key is configured. -/
theorem ambient_facts_copied_witness :
    sampleOut.ansiblePlaybookCmd plainExtern sampleRequest
      = (.ok sampleAnsible, sampleRequestAfter, sampleOutAfter) ∧
    ∃ w, sampleOut.args.get? 1 = some w ∧
      sampleAnsible.extraVars.get "concourse_build_id" = some (.str "2199") ∧
      sampleAnsible.extraVars.get "concourse_build_name" = some (.str "217") ∧
      sampleAnsible.extraVars.get "concourse_build_job" = some (.str "testing") ∧
      sampleAnsible.extraVars.get "concourse_build_pipeline"
        = some (.str "example-component") ∧
      sampleAnsible.extraVars.get "concourse_build_team" = some (.str "sre") ∧
      sampleAnsible.extraVars.get "concourse_atc_external_url"
        = some (.str "http://127.0.0.1:8080") ∧
      sampleAnsible.extraVars.get "workdir" = some (.str w) ∧
      sampleAnsible.extraVars.get "storage" = some (.obj
        [("aws_access_key_id", .str "foo"),
         ("aws_secret_access_key", .str "bar"),
         ("bucket", .str "foo"),
         ("key", .str "sre/example-component/concourse-terraform-resource/version.tgz"),
         ("region", .str "us-east-1")]) :=
  ⟨rfl,
   ambient_facts_copied plainExtern sampleOut sampleOutAfter sampleRequest sampleRequestAfter
     sampleAnsible rfl⟩

theorem toList_mem (x : Extern) (m : GoMap) (k v : String) (h : (k, v) ∈ m) :
    k ++ "=" ++ v ∈ toList x m := by
  unfold toList
  exact List.mem_map_of_mem (fun kv : String × String => kv.1 ++ "=" ++ kv.2)
    ((x.rangeOrder_perm m).mem_iff.mpr h)

theorem dash_v_ne_at (name : String) : "-v" ≠ "@" ++ name := by
  intro h
  have hd := congrArg String.data h
  rw [String.data_append] at hd
  have h0 := congrArg List.head? hd
  simp at h0

/-- C9. The environment list of the command `ansiblePlaybookCmd` returns holds
the four vault entries built from Source.Vault with the `approle` method, and the
two output-formatting entries; its argument list is empty, so holds no `-v`, and
still holds none after `prepareRun` added the vars-file argument. -/
theorem vault_environment (x : Extern) (cmd c' : Out) (req req' : OutRequest) (a : Ansible)
    (h : cmd.ansiblePlaybookCmd x req = (.ok a, req', c')) :
    "ANSIBLE_HASHI_VAULT_ADDR=" ++ req.Source.Vault.Addr ∈ a.envs ∧
    "ANSIBLE_HASHI_VAULT_AUTH_METHOD=approle" ∈ a.envs ∧
    "ANSIBLE_HASHI_VAULT_ROLE_ID=" ++ req.Source.Vault.RoleID ∈ a.envs ∧
    "ANSIBLE_HASHI_VAULT_SECRET_ID=" ++ req.Source.Vault.SecretID ∈ a.envs ∧
    "ANSIBLE_FORCE_COLOR=True" ∈ a.envs ∧
    "ANSIBLE_STDOUT_CALLBACK=debug" ∈ a.envs ∧
    a.args = [] ∧ "-v" ∉ a.args ∧
    ∀ (w : World) (files : List String), "-v" ∉ (a.prepareRun w files).2.1.args := by
  obtain ⟨_, c1, w, a1, c4, doc, _, _, e3, _, e5, _⟩ :=
    ansiblePlaybookCmd_ok x cmd c' req req' a h
  obtain ⟨_, hargs, _, extra, henvs⟩ := mergeEnvs_ok x _ _ _ _ _ e3
  have hvault : (req.assignFallback cmd.env.Team cmd.env.Pipeline).Source.Vault
      = req.Source.Vault := AssignFallbackValues_Vault _ _ _
  have haenvs : a.envs = a1.envs := by rw [e5]
  have haargs : a.args = [] := by rw [e5]; exact hargs
  have mem : ∀ k v, (k, v) ∈
      [("ANSIBLE_FORCE_COLOR", "True"),
       ("ANSIBLE_STDOUT_CALLBACK", "debug"),
       ("ANSIBLE_DISPLAY_SKIPPED_HOSTS", "False"),
       ("ANSIBLE_HASHI_VAULT_ADDR", req.Source.Vault.Addr),
       ("ANSIBLE_HASHI_VAULT_AUTH_METHOD", "approle"),
       ("ANSIBLE_HASHI_VAULT_ROLE_ID", req.Source.Vault.RoleID),
       ("ANSIBLE_HASHI_VAULT_SECRET_ID", req.Source.Vault.SecretID),
       ("ANSIBLE_COLOR_OK", "white")] → k ++ "=" ++ v ∈ a.envs := by
    intro k v hkv
    rw [haenvs, henvs]
    apply List.mem_append_left
    unfold NewAnsible
    dsimp only
    apply List.mem_append_right
    rw [hvault]
    exact toList_mem x _ k v hkv
  refine ⟨?_, ?_, ?_, ?_, ?_, ?_, haargs, ?_, ?_⟩
  · exact mem "ANSIBLE_HASHI_VAULT_ADDR" req.Source.Vault.Addr (by simp)
  · exact mem "ANSIBLE_HASHI_VAULT_AUTH_METHOD" "approle" (by simp)
  · exact mem "ANSIBLE_HASHI_VAULT_ROLE_ID" req.Source.Vault.RoleID (by simp)
  · exact mem "ANSIBLE_HASHI_VAULT_SECRET_ID" req.Source.Vault.SecretID (by simp)
  · exact mem "ANSIBLE_FORCE_COLOR" "True" (by simp)
  · exact mem "ANSIBLE_STDOUT_CALLBACK" "debug" (by simp)
  · rw [haargs]
    simp
  · intro w files
    unfold Ansible.prepareRun
    split
    · rw [haargs]; simp
    · rw [haargs]; simp
    · split
      · rw [haargs]; simp
      · dsimp only
        rw [haargs]
        simp only [List.nil_append, List.mem_cons, List.mem_singleton, List.not_mem_nil,
          or_false, not_or]
        exact ⟨by decide, dash_v_ne_at _⟩

/-- C9 at the put test's basic case. -/
theorem vault_environment_witness :
    sampleOut.ansiblePlaybookCmd plainExtern sampleRequest
      = (.ok sampleAnsible, sampleRequestAfter, sampleOutAfter) ∧
    "ANSIBLE_HASHI_VAULT_ADDR=https://vault.com" ∈ sampleAnsible.envs ∧
    "ANSIBLE_HASHI_VAULT_AUTH_METHOD=approle" ∈ sampleAnsible.envs ∧
    "ANSIBLE_HASHI_VAULT_ROLE_ID=vault-role-d" ∈ sampleAnsible.envs ∧
    "ANSIBLE_HASHI_VAULT_SECRET_ID=vault-secret-id" ∈ sampleAnsible.envs ∧
    "ANSIBLE_FORCE_COLOR=True" ∈ sampleAnsible.envs ∧
    "ANSIBLE_STDOUT_CALLBACK=debug" ∈ sampleAnsible.envs ∧
    sampleAnsible.args = [] ∧ "-v" ∉ sampleAnsible.args := by
  have h := vault_environment plainExtern sampleOut sampleOutAfter sampleRequest
    sampleRequestAfter sampleAnsible rfl
  exact ⟨rfl, h.1, h.2.1, h.2.2.1, h.2.2.2.1, h.2.2.2.2.1, h.2.2.2.2.2.1, h.2.2.2.2.2.2.1,
    h.2.2.2.2.2.2.2.1⟩

/-! ## Which input each evaluation uses (C10) -/

theorem arg1_snd (c : Out) : c.arg1.2 = c := by
  unfold Out.arg1
  split <;> rfl

theorem buildCommand_advances (x : Extern) (cmd : Out) (req : OutRequest) :
    cmd.advances (cmd.buildCommand x req).2.2 := by
  unfold Out.buildCommand
  split
  · rename_i e c2 h
    have hc : c2 = cmd := by rw [← arg1_snd cmd, h]
    rw [hc]
    exact advances_refl cmd
  · rename_i e c2 h
    have hc : c2 = cmd := by rw [← arg1_snd cmd, h]
    rw [hc]
    exact advances_refl cmd
  · rename_i w c2 h
    have hc : c2 = cmd := by rw [← arg1_snd cmd, h]
    rw [hc]
    dsimp only
    have h3 : cmd.advances { cmd with evals := cmd.evals ++ [Event.newAnsible] } :=
      ⟨rfl, rfl, rfl, [Event.newAnsible], rfl, by simp [Event.usesInput]⟩
    refine advances_trans _ _ _ h3 ?_
    apply andThen_advances
    · exact mergeEnvs_advances x _ _ _
    · intro a1 c4 h4
      apply andThen_advances
      · rw [wrapErr_snd]
        exact advances_trans _ _ _ h4 (injectExtraVars_advances x c4 _ _)
      · intro d c5 h5
        exact h5

theorem parseMapping_snd (x : Extern) (c : Out) (text : String) :
    (c.parseMapping x text).2
      = { c with evals := c.evals ++ [Event.mapping c.currentInput text] } := by
  unfold Out.parseMapping
  dsimp only
  split
  · rfl
  · split <;> rfl

theorem parseMapping_fst_ok (x : Extern) (c : Out) (text : String) (m : Message)
    (h : (c.parseMapping x text).1 = .ok m) :
    ∃ f p, x.NewMapping text = .ok f ∧ f c.evals.length c.currentInput = .ok p ∧ m = [p] := by
  unfold Out.parseMapping at h
  dsimp only at h
  split at h
  · simp at h
  · rename_i f hf
    split at h
    · simp at h
    · rename_i p hp
      simp only [Result.ok.injEq] at h
      exact ⟨f, p, hf, hp, h.symm⟩

/-- The state `computeInput` leaves: untouched without an input mapping; with
one, the mapping call is recorded and `cmd.input` is its result, or nil when it
failed. -/
theorem computeInput_cases (x : Extern) (cmd : Out) (req : OutRequest) :
    (req.Params.InputMapping = "" ∧ cmd.computeInput x req = (.ok (), cmd)) ∨
    (req.Params.InputMapping ≠ "" ∧
      ((∃ m, (cmd.parseMapping x req.Params.InputMapping).1 = .ok m ∧
          cmd.computeInput x req = (.ok (),
            { cmd with
              evals := cmd.evals ++ [Event.mapping cmd.currentInput req.Params.InputMapping],
              input := some m })) ∨
       (∃ r, (∀ u, r ≠ .ok u) ∧
          cmd.computeInput x req = (r,
            { cmd with
              evals := cmd.evals ++ [Event.mapping cmd.currentInput req.Params.InputMapping],
              input := none })))) := by
  by_cases hi : req.Params.InputMapping = ""
  · left
    refine ⟨hi, ?_⟩
    unfold Out.computeInput
    simp [hi]
  · right
    refine ⟨hi, ?_⟩
    have hs := parseMapping_snd x cmd req.Params.InputMapping
    unfold Out.computeInput
    simp only [ne_eq, hi, not_false_eq_true, if_true]
    cases hp : cmd.parseMapping x req.Params.InputMapping with
    | mk r c =>
      rw [hp] at hs
      simp only at hs
      cases r with
      | ok m =>
        left
        refine ⟨m, rfl, ?_⟩
        simp only [hs]
      | err e =>
        right
        refine ⟨.err ("error parsing input context: " ++ e), by simp, ?_⟩
        simp only [hs]
      | abort e =>
        right
        refine ⟨.abort e, by simp, ?_⟩
        simp only [hs]

/-- The record `ansiblePlaybookCmd` leaves. Without an input mapping every
evaluator call used the executor's input. With one, the record grows by nothing
(validation failed) or by the input mapping, evaluated against the executor's
input, followed by calls that all used the mapping's result. -/
theorem ansiblePlaybookCmd_trace (x : Extern) (cmd : Out) (req : OutRequest) :
    (req.Params.InputMapping = "" → cmd.advances (cmd.ansiblePlaybookCmd x req).2.2) ∧
    (req.Params.InputMapping ≠ "" →
      ∃ post, (cmd.ansiblePlaybookCmd x req).2.2.evals = cmd.evals ++ post ∧
        ((post = [] ∧ ∀ a, (cmd.ansiblePlaybookCmd x req).1 ≠ .ok a) ∨ ∃ rest,
          post = Event.mapping cmd.currentInput req.Params.InputMapping :: rest ∧
          ((rest = [] ∧ ∀ a, (cmd.ansiblePlaybookCmd x req).1 ≠ .ok a) ∨
            ∃ m, (cmd.parseMapping x req.Params.InputMapping).1 = .ok m ∧
              ∀ e ∈ rest, Event.usesInput m e))) := by
  have hIM : (req.assignFallback cmd.env.Team cmd.env.Pipeline).Params.InputMapping
      = req.Params.InputMapping := rfl
  unfold Out.ansiblePlaybookCmd
  split
  · exact ⟨fun _ => advances_refl cmd, fun _ => ⟨[], by simp, Or.inl ⟨rfl, by simp⟩⟩⟩
  · dsimp only
    rcases computeInput_cases x cmd (req.assignFallback cmd.env.Team cmd.env.Pipeline) with
      ⟨hi, hc⟩ | ⟨hi, ⟨m, hm, hc⟩ | ⟨r, hr, hc⟩⟩
    · rw [hIM] at hi
      rw [hc]
      refine ⟨fun _ => buildCommand_advances x cmd _, fun hne => absurd hi hne⟩
    · rw [hIM] at hi hm hc
      rw [hc]
      refine ⟨fun he => absurd he hi, fun _ => ?_⟩
      obtain ⟨_, _, _, evs, hev, huse⟩ := buildCommand_advances x
        { cmd with
          evals := cmd.evals ++ [Event.mapping cmd.currentInput req.Params.InputMapping],
          input := some m }
        (req.assignFallback cmd.env.Team cmd.env.Pipeline)
      refine ⟨Event.mapping cmd.currentInput req.Params.InputMapping :: evs, ?_, Or.inr ?_⟩
      · rw [hev]
        simp
      · exact ⟨evs, rfl, Or.inr ⟨m, hm, huse⟩⟩
    · rw [hIM] at hi hc
      rw [hc]
      refine ⟨fun he => absurd he hi, fun _ => ?_⟩
      refine ⟨[Event.mapping cmd.currentInput req.Params.InputMapping], ?_,
        Or.inr ⟨[], rfl, Or.inl ⟨rfl, ?_⟩⟩⟩
      · cases r with
        | ok u => exact absurd rfl (hr u)
        | err e => rfl
        | abort e => rfl
      · cases r with
        | ok u => exact absurd rfl (hr u)
        | err e => simp
        | abort e => simp

theorem parseField_snd (x : Extern) (c : Out) (text : String) :
    (c.parseField x text).2
      = { c with evals := c.evals ++ [Event.field c.currentInput text] } := by
  unfold Out.parseField
  dsimp only
  split <;> rfl

/-- The record `configureSSH` leaves: nothing without a private key; with one,
the evaluation of the key field against the executor's input, then at most the
call of `setupSSH`. -/
theorem configureSSH_trace (x : Extern) (w : World) (cmd : Out) (req : OutRequest) :
    (cmd.configureSSH x w req).2.input = cmd.input ∧
    (cmd.configureSSH x w req).2.args = cmd.args ∧
    (cmd.configureSSH x w req).2.env = cmd.env ∧
    ∃ pre, (cmd.configureSSH x w req).2.evals = cmd.evals ++ pre ∧
      (req.PrivateKey.2 = false → pre = []) ∧
      (req.PrivateKey.2 = true →
        ∃ pre', pre = Event.field cmd.currentInput req.PrivateKey.1 :: pre') ∧
      ∀ e ∈ pre, e = Event.field cmd.currentInput req.PrivateKey.1 ∨
        ∃ k, e = Event.setupSSH k := by
  unfold Out.configureSSH
  by_cases hk : req.PrivateKey.2 = true
  · simp only [hk, if_true]
    have hs := parseField_snd x cmd req.PrivateKey.1
    cases hp : cmd.parseField x req.PrivateKey.1 with
    | mk r c =>
      rw [hp] at hs
      simp only at hs
      cases r with
      | ok key =>
        have hw : wrapErr "error parsing private key: " (Result.ok key, c) = (Result.ok key, c) :=
          rfl
        rw [hw]
        simp only [andThen, wrapErr_snd, hs]
        refine ⟨trivial, trivial, trivial,
          [Event.field cmd.currentInput req.PrivateKey.1, Event.setupSSH key], by simp,
          by simp, fun _ => ⟨_, rfl⟩, ?_⟩
        intro e he
        simp only [List.mem_cons, List.mem_singleton, List.not_mem_nil, or_false] at he
        rcases he with he | he
        · exact Or.inl he
        · exact Or.inr ⟨key, he⟩
      | err e =>
        simp only [wrapErr, andThen, hs]
        refine ⟨trivial, trivial, trivial, [Event.field cmd.currentInput req.PrivateKey.1], rfl,
          by simp, fun _ => ⟨_, rfl⟩, ?_⟩
        intro e he
        simp only [List.mem_singleton] at he
        exact Or.inl he
      | abort e =>
        simp only [wrapErr, andThen, hs]
        refine ⟨trivial, trivial, trivial, [Event.field cmd.currentInput req.PrivateKey.1], rfl,
          by simp, fun _ => ⟨_, rfl⟩, ?_⟩
        intro e he
        simp only [List.mem_singleton] at he
        exact Or.inl he
  · have hk' : req.PrivateKey.2 = false := by
      cases h : req.PrivateKey.2
      · rfl
      · exact absurd h hk
    simp only [hk', Bool.false_eq_true, if_false]
    exact ⟨trivial, trivial, trivial, [], by simp, fun _ => rfl, fun h => h.elim, by simp⟩

theorem runAndRespond_evals (x : Extern) (w : World) (cmd : Out) (a : Ansible)
    (req : OutRequest) (files : List String) :
    (cmd.runAndRespond x w a req files).cmd.evals = cmd.evals ++ [Event.run] := by
  unfold Out.runAndRespond
  dsimp only
  split
  · rfl
  · rfl
  · split <;> rfl

/-- The record a whole `Execute` leaves, in terms of its two evaluating steps. -/
theorem Execute_evals (x : Extern) (w : World) (args files : List String) (req : OutRequest)
    (hdec : w.decode = .ok req) :
    ((∀ env, w.parseEnvironment ≠ .ok env) ∧ (Out.Execute x w args files).cmd.evals = []) ∨
    ∃ env, w.parseEnvironment = .ok env ∧
      ((Out.Execute x w args files).cmd.evals
          = (Out.configureSSH x w { NewOut args with env := env } req).2.evals ∨
       (Out.Execute x w args files).cmd.evals
          = (Out.ansiblePlaybookCmd x
              (Out.configureSSH x w { NewOut args with env := env } req).2 req).2.2.evals ∨
       ((∃ a, (Out.ansiblePlaybookCmd x
              (Out.configureSSH x w { NewOut args with env := env } req).2 req).1 = .ok a) ∧
        (Out.Execute x w args files).cmd.evals
          = (Out.ansiblePlaybookCmd x
              (Out.configureSSH x w { NewOut args with env := env } req).2 req).2.2.evals
            ++ [Event.run])) := by
  unfold Out.Execute
  cases hpe : w.parseEnvironment with
  | err e => exact Or.inl ⟨by simp, rfl⟩
  | abort e => exact Or.inl ⟨by simp, rfl⟩
  | ok env =>
    right
    refine ⟨env, rfl, ?_⟩
    simp only [hdec]
    cases hc : Out.configureSSH x w { NewOut args with env := env } req with
    | mk r c1 =>
      cases r with
      | err e => exact Or.inl rfl
      | abort e => exact Or.inl rfl
      | ok u =>
        simp only
        have h1 := arg1_snd c1
        cases ha : c1.arg1 with
        | mk r2 c2 =>
          rw [ha] at h1
          simp only at h1
          subst h1
          cases r2 with
          | err e => exact Or.inl rfl
          | abort e => exact Or.inl rfl
          | ok dir =>
            simp only
            cases hch : w.chdir dir with
            | some e => exact Or.inl rfl
            | none =>
              simp only
              cases hp : Out.ansiblePlaybookCmd x c2 req with
              | mk r3 rest =>
                obtain ⟨req1, c3⟩ := rest
                cases r3 with
                | err e => exact Or.inr (Or.inl rfl)
                | abort e => exact Or.inr (Or.inl rfl)
                | ok a =>
                  simp only
                  exact Or.inr (Or.inr ⟨⟨a, rfl⟩, runAndRespond_evals x w c3 a req1 files⟩)

/-- C10, as the code has it. In one `Execute` on a decoded request:
without an input mapping every evaluator call uses the empty object; with one,
the record is the private-key step (the key field evaluated against the empty
object, then `setupSSH`; nothing when no key is supplied), followed by either
nothing or the input mapping evaluated against the empty object and then calls
(env values, context, workspace, release version, vars mapping, var files) that
all use the mapping's result. When a private key is supplied its field is the
first evaluation, against the empty object. -/
theorem evaluation_inputs (x : Extern) (w : World) (args files : List String)
    (req : OutRequest) (hdec : w.decode = .ok req) :
    (req.Params.InputMapping = "" →
      ∀ e ∈ (Out.Execute x w args files).cmd.evals, Event.usesInput emptyMessage e) ∧
    (req.Params.InputMapping ≠ "" →
      ∃ pre post, (Out.Execute x w args files).cmd.evals = pre ++ post ∧
        (req.PrivateKey.2 = false → pre = []) ∧
        (∀ e ∈ pre, e = Event.field emptyMessage req.PrivateKey.1 ∨ ∃ k, e = Event.setupSSH k) ∧
        (post = [] ∨ ∃ rest,
          post = Event.mapping emptyMessage req.Params.InputMapping :: rest ∧
          (rest = [] ∨ ∃ f p, x.NewMapping req.Params.InputMapping = .ok f ∧
            f pre.length emptyMessage = .ok p ∧ ∀ e ∈ rest, Event.usesInput [p] e))) ∧
    (∀ env, w.parseEnvironment = .ok env → req.PrivateKey.2 = true →
      ∃ tail, (Out.Execute x w args files).cmd.evals
        = Event.field emptyMessage req.PrivateKey.1 :: tail) := by
  rcases Execute_evals x w args files req hdec with ⟨hne, he⟩ | ⟨env, hpe, hcases⟩
  · rw [he]
    refine ⟨fun _ e h => by simp at h, fun _ => ⟨[], [], rfl, fun _ => rfl, by simp, Or.inl rfl⟩,
      fun env henv _ => absurd henv (hne env)⟩
  · obtain ⟨hin, _, _, pre, hpre, hnokey, hkey, hall⟩ :=
      configureSSH_trace x w { NewOut args with env := env } req
    have hcur0 : Out.currentInput { NewOut args with env := env } = emptyMessage := rfl
    rw [hcur0] at hkey hall
    have hpre' : (Out.configureSSH x w { NewOut args with env := env } req).2.evals = pre := by
      rw [hpre]
      rfl
    have hcur : (Out.configureSSH x w { NewOut args with env := env } req).2.currentInput
        = emptyMessage := by
      rw [currentInput_congr _ _ hin]
      rfl
    have hpreUse : ∀ e ∈ pre, Event.usesInput emptyMessage e := by
      intro e he
      rcases hall e he with h | ⟨k, h⟩ <;> rw [h] <;> simp [Event.usesInput]
    obtain ⟨t1, t2⟩ := ansiblePlaybookCmd_trace x
      (Out.configureSSH x w { NewOut args with env := env } req).2 req
    rw [hcur, hpre'] at t2
    have first : ∀ l : List Event, req.PrivateKey.2 = true →
        ∃ tail, pre ++ l = Event.field emptyMessage req.PrivateKey.1 :: tail := by
      intro l hk
      obtain ⟨pre', hp⟩ := hkey hk
      exact ⟨pre' ++ l, by rw [hp]; rfl⟩
    have noInput : req.Params.InputMapping = "" →
        ∃ evs, (Out.ansiblePlaybookCmd x
            (Out.configureSSH x w { NewOut args with env := env } req).2 req).2.2.evals
            = pre ++ evs ∧ ∀ e ∈ evs, Event.usesInput emptyMessage e := by
      intro hi
      obtain ⟨_, _, _, evs, hev, huse⟩ := t1 hi
      rw [hcur] at huse
      rw [hpre'] at hev
      exact ⟨evs, hev, huse⟩
    have someOrNone : req.Params.InputMapping = "" ∨ req.Params.InputMapping ≠ "" :=
      em _
    have grown : ∃ evs, (Out.ansiblePlaybookCmd x
          (Out.configureSSH x w { NewOut args with env := env } req).2 req).2.2.evals
          = pre ++ evs := by
      rcases someOrNone with hi | hi
      · obtain ⟨evs, hev, _⟩ := noInput hi
        exact ⟨evs, hev⟩
      · obtain ⟨post, hev, _⟩ := t2 hi
        exact ⟨post, hev⟩
    rcases hcases with hE | hE | ⟨⟨a, hok⟩, hE⟩
    · rw [hE, hpre']
      refine ⟨fun _ => hpreUse, fun _ => ⟨pre, [], by simp, hnokey, hall, Or.inl rfl⟩, ?_⟩
      intro env' _ hk
      obtain ⟨tail, ht⟩ := first [] hk
      exact ⟨tail, by rw [← ht]; simp⟩
    · rw [hE]
      refine ⟨?_, ?_, ?_⟩
      · intro hi e he
        obtain ⟨evs, hev, huse⟩ := noInput hi
        rw [hev] at he
        rcases List.mem_append.mp he with h | h
        · exact hpreUse e h
        · exact huse e h
      · intro hi
        obtain ⟨post, hev, hpost⟩ := t2 hi
        refine ⟨pre, post, hev, hnokey, hall, ?_⟩
        rcases hpost with ⟨hp, _⟩ | ⟨rest, hp, hrest⟩
        · exact Or.inl hp
        · refine Or.inr ⟨rest, hp, ?_⟩
          rcases hrest with ⟨hr, _⟩ | ⟨m, hm, huse⟩
          · exact Or.inl hr
          · obtain ⟨f, p, hf, hfp, hmp⟩ := parseMapping_fst_ok x _ _ m hm
            rw [hcur, hpre'] at hfp
            rw [hmp] at huse
            exact Or.inr ⟨f, p, hf, hfp, huse⟩
      · intro env' _ hk
        obtain ⟨evs, hev⟩ := grown
        rw [hev]
        exact first evs hk
    · rw [hE]
      refine ⟨?_, ?_, ?_⟩
      · intro hi e he
        obtain ⟨evs, hev, huse⟩ := noInput hi
        rw [hev] at he
        rcases List.mem_append.mp he with h | h
        · rcases List.mem_append.mp h with h | h
          · exact hpreUse e h
          · exact huse e h
        · rw [List.mem_singleton.mp h]
          simp [Event.usesInput]
      · intro hi
        obtain ⟨post, hev, hpost⟩ := t2 hi
        rcases hpost with ⟨_, hno⟩ | ⟨rest, hp, hrest⟩
        · exact absurd hok (hno a)
        · rcases hrest with ⟨_, hno⟩ | ⟨m, hm, huse⟩
          · exact absurd hok (hno a)
          · obtain ⟨f, p, hf, hfp, hmp⟩ := parseMapping_fst_ok x _ _ m hm
            rw [hcur, hpre'] at hfp
            rw [hmp] at huse
            refine ⟨pre, post ++ [Event.run], by rw [hev, List.append_assoc], hnokey, hall,
              Or.inr ⟨rest ++ [Event.run], by rw [hp]; rfl, Or.inr ⟨f, p, hf, hfp, ?_⟩⟩⟩
            intro e he
            rcases List.mem_append.mp he with h | h
            · exact huse e h
            · rw [List.mem_singleton.mp h]
              simp [Event.usesInput]
      · intro env' _ hk
        obtain ⟨evs, hev⟩ := grown
        rw [hev, List.append_assoc]
        exact first (evs ++ [Event.run]) hk

/-- C10 on a put with a private key and an input mapping: the key field is
evaluated first against the empty object, the input mapping next, and the
context and workspace against the mapping's result. -/
theorem evaluation_inputs_witness :
    (sampleWorld keyRequest).decode = .ok keyRequest ∧
    keyRequest.Params.InputMapping ≠ "" ∧
    (sampleWorld keyRequest).parseEnvironment = .ok sampleEnv ∧
    keyRequest.PrivateKey.2 = true ∧
    (∃ pre post,
      (Out.Execute plainExtern (sampleWorld keyRequest) ["/out", "/tmp/build/put"] []).cmd.evals
        = pre ++ post ∧
      (keyRequest.PrivateKey.2 = false → pre = []) ∧
      (∀ e ∈ pre, e = Event.field emptyMessage keyRequest.PrivateKey.1 ∨
        ∃ k, e = Event.setupSSH k) ∧
      (post = [] ∨ ∃ rest,
        post = Event.mapping emptyMessage keyRequest.Params.InputMapping :: rest ∧
        (rest = [] ∨ ∃ f p, plainExtern.NewMapping keyRequest.Params.InputMapping = .ok f ∧
          f pre.length emptyMessage = .ok p ∧ ∀ e ∈ rest, Event.usesInput [p] e))) ∧
    ∃ tail,
      (Out.Execute plainExtern (sampleWorld keyRequest) ["/out", "/tmp/build/put"] []).cmd.evals
        = Event.field emptyMessage keyRequest.PrivateKey.1 :: tail :=
  ⟨rfl, by decide, rfl, rfl,
   (evaluation_inputs plainExtern (sampleWorld keyRequest) ["/out", "/tmp/build/put"] []
      keyRequest rfl).2.1 (by decide),
   (evaluation_inputs plainExtern (sampleWorld keyRequest) ["/out", "/tmp/build/put"] []
      keyRequest rfl).2.2 sampleEnv rfl rfl⟩

/-- C10 as stated fails on a put with a private key and an input mapping: the
first evaluation is the private-key field, not the input mapping, and it is made
against the empty object, not against the mapping's result. -/
theorem private_key_evaluated_first_counterexample :
    keyRequest.Params.InputMapping = "root = this" ∧
    (Out.Execute plainExtern (sampleWorld keyRequest) ["/out", "/tmp/build/put"] []).cmd.evals
      = [Event.field emptyMessage "key",
         Event.setupSSH "key",
         Event.mapping emptyMessage "root = this",
         Event.newAnsible,
         Event.field ["root = this"] "foo",
         Event.field ["root = this"] "",
         Event.run] ∧
    emptyMessage ≠ ["root = this"] ∧
    ¬ ∃ m, inputMappingFirst "root = this" m
      (Out.Execute plainExtern (sampleWorld keyRequest) ["/out", "/tmp/build/put"] []).cmd.evals := by
  have h : (Out.Execute plainExtern (sampleWorld keyRequest) ["/out", "/tmp/build/put"]
      []).cmd.evals
      = [Event.field emptyMessage "key",
         Event.setupSSH "key",
         Event.mapping emptyMessage "root = this",
         Event.newAnsible,
         Event.field ["root = this"] "foo",
         Event.field ["root = this"] "",
         Event.run] := rfl
  refine ⟨rfl, h, by decide, ?_⟩
  rintro ⟨m, rest, hrest, _⟩
  rw [h] at hrest
  simp at hrest

/-! ## Release version (C11) -/

theorem hasLeadingSlash_append (a b : String) (h : hasLeadingSlash a = true) :
    hasLeadingSlash (a ++ b) = true := by
  unfold hasLeadingSlash at h ⊢
  rw [String.data_append]
  cases hd : a.data with
  | nil => rw [hd] at h; simp at h
  | cons c cs => rw [hd] at h; simpa using h

theorem pathClean_rooted (p : String) (h : hasLeadingSlash p = true) :
    hasLeadingSlash (pathClean p) = true := by
  unfold pathClean
  simp only [h, if_true]
  rw [if_neg (by simp)]
  rfl

theorem pathJoin_abs (a b : String) (h : hasLeadingSlash a = true) :
    hasLeadingSlash (pathJoin a b) = true := by
  have ha : a ≠ "" := by
    intro he
    rw [he] at h
    exact absurd h (by decide)
  unfold pathJoin
  rw [if_neg (fun hc => ha hc.1), if_neg ha]
  split
  · exact pathClean_rooted a h
  · exact pathClean_rooted _ (hasLeadingSlash_append _ _ (hasLeadingSlash_append _ _ h))

theorem varFileEntry_abs (w e : String) (h : hasLeadingSlash w = true) :
    hasLeadingSlash (varFileEntry w e) = true := by
  unfold varFileEntry
  split
  · assumption
  · exact pathJoin_abs w e h

/-- Success of the var-files loop: one entry per expression, in order, each the
evaluated expression made absolute under the working directory `w`. -/
theorem varFilesLoop_ok (x : Extern) (w : String) (fs : List String) :
    ∀ (c c' : Out) (acc out : List String), c.args.get? 1 = some w →
      Out.varFilesLoop x c fs acc = (.ok out, c') →
      ∃ es, out = acc ++ es ∧
        List.Forall₂ (fun f entry => ∃ c0 c1 e, c.advances c0 ∧
          c0.parseField x f = (.ok e, c1) ∧ entry = varFileEntry w e) fs es := by
  induction fs with
  | nil =>
    intro c c' acc out _ h
    simp only [Out.varFilesLoop, Prod.mk.injEq, Result.ok.injEq] at h
    exact ⟨[], by rw [← h.1]; simp, List.Forall₂.nil⟩
  | cons f rest ih =>
    intro c c' acc out hw h
    unfold Out.varFilesLoop at h
    obtain ⟨varFile, c0, h1, h2⟩ := andThen_ok _ _ _ _ h
    have h1 := wrapErr_ok _ _ _ _ h1
    have adv0 := advances_of_eq c c0 _ _ h1 (parseField_advances x c f)
    have hw0 : c0.args.get? 1 = some w := by rw [adv0.2.1]; exact hw
    have lift : ∀ (g entry : String),
        (∃ k0 k1 e, c0.advances k0 ∧ k0.parseField x g = (.ok e, k1) ∧
          entry = varFileEntry w e) →
        ∃ k0 k1 e, c.advances k0 ∧ k0.parseField x g = (.ok e, k1) ∧
          entry = varFileEntry w e := by
      rintro g entry ⟨k0, k1, e, hk, hp, he⟩
      exact ⟨k0, k1, e, advances_trans _ _ _ adv0 hk, hp, he⟩
    by_cases hs : hasLeadingSlash varFile = true
    · simp only [hs, Bool.not_true, Bool.false_eq_true, if_false] at h2
      obtain ⟨es, hout, hall⟩ := ih c0 c' _ out hw0 h2
      refine ⟨varFile :: es, by rw [hout]; simp, List.Forall₂.cons ?_ (hall.imp lift)⟩
      exact ⟨c, c0, varFile, advances_refl c, h1, by simp [varFileEntry, hs]⟩
    · have hs' : hasLeadingSlash varFile = false := by
        cases hb : hasLeadingSlash varFile
        · rfl
        · exact absurd hb hs
      simp only [hs', Bool.not_false, if_true] at h2
      obtain ⟨w', c1, ha, h3⟩ := andThen_ok _ _ _ _ h2
      obtain ⟨hw', hc1⟩ := arg1_ok _ _ _ ha
      rw [hw0] at hw'
      have hww : w' = w := (Option.some.inj hw').symm
      rw [hc1, hww] at h3
      obtain ⟨es, hout, hall⟩ := ih c0 c' _ out hw0 h3
      refine ⟨pathJoin w varFile :: es, by rw [hout]; simp, List.Forall₂.cons ?_ (hall.imp lift)⟩
      exact ⟨c, c0, varFile, advances_refl c, h1, by simp [varFileEntry, hs']⟩

theorem forall₂_right_all {α β : Type} (R : α → β → Prop) (P : β → Prop)
    (hRP : ∀ a b, R a b → P b) (l1 : List α) (l2 : List β) (h : List.Forall₂ R l1 l2) :
    ∀ b ∈ l2, P b := by
  induction h with
  | nil => intro b hb; simp at hb
  | cons hab _ ih =>
    intro b hb
    rcases List.mem_cons.mp hb with hb | hb
    · rw [hb]; exact hRP _ _ hab
    · exact ih b hb

/-- C12. In the document `injectExtraVars` builds, `terraform_var_files` is
written only when Params.VarFiles is non-empty (`NewAnsible` leaves it absent).
It is then the list, of the same length and in the same order, whose i-th entry
is the evaluated i-th expression when that begins with a slash and
`path.Join(w, e)` otherwise, `w` being the working-directory argument; when `w`
begins with a slash so does every entry. -/
theorem var_files_made_absolute (x : Extern) (cmd c' : Out) (d doc : Doc) (req : OutRequest)
    (h : cmd.injectExtraVars x d req = (.ok doc, c')) :
    (∀ src env playbook w,
      (NewAnsible x src env playbook w).extraVars.get "terraform_var_files" = none) ∧
    (req.Params.VarFiles = [] →
      doc.get "terraform_var_files" = d.get "terraform_var_files") ∧
    (req.Params.VarFiles ≠ [] →
      ∃ w entries, cmd.args.get? 1 = some w ∧
        doc.get "terraform_var_files" = some (.arr (entries.map JVal.str)) ∧
        List.Forall₂ (fun f entry => ∃ c0 c1 e, cmd.advances c0 ∧
          c0.parseField x f = (.ok e, c1) ∧ entry = varFileEntry w e)
          req.Params.VarFiles entries ∧
        entries.length = req.Params.VarFiles.length ∧
        (hasLeadingSlash w = true → ∀ entry ∈ entries, hasLeadingSlash entry = true)) := by
  obtain ⟨context, c1, workspace, c2, d3, c3, d4, c4, d5, w, e1, e2, e3, e4, e5, hw, hd⟩ :=
    injectExtraVars_ok x cmd c' d doc req h
  have hdoc : doc.get "terraform_var_files" = d5.get "terraform_var_files" := by
    rw [hd, Doc.get_Set_ne _ _ _ _ (by decide), Doc.get_Set_ne _ _ _ _ (by decide),
      Doc.get_Set_ne _ _ _ _ (by decide)]
  have hd4 : d4.get "terraform_var_files" = d.get "terraform_var_files" := by
    rw [setTerraformVars_get x _ _ _ _ req e4 _ (by decide),
      setReleaseVersion_get x _ _ _ _ req e3 _ (by decide),
      Doc.get_Set_ne _ _ _ _ (by decide), Doc.get_Set_ne _ _ _ _ (by decide)]
  have a1 := advances_of_eq cmd c1 _ _ e1 (parseField_advances x cmd _)
  have a2 := advances_of_eq c1 c2 _ _ e2 (parseField_advances x c1 _)
  have a3 := advances_of_eq c2 c3 _ _ e3 (setReleaseVersion_advances x c2 _ req)
  have a4 := advances_of_eq c3 c4 _ _ e4 (setTerraformVars_advances x c3 _ req)
  have a5 := advances_of_eq c4 c' _ _ e5 (setVarFiles_advances x c4 _ req)
  have a14 := advances_trans _ _ _ (advances_trans _ _ _ (advances_trans _ _ _ a1 a2) a3) a4
  have hw4 : c4.args.get? 1 = some w := by rw [← a5.2.1]; exact hw
  have hwc : cmd.args.get? 1 = some w := by rw [← a14.2.1]; exact hw4
  refine ⟨?_, ?_, ?_⟩
  · intro src env playbook w
    simp [NewAnsible, Doc.Set, Doc.erase, Doc.get]
  · intro hv
    rcases setVarFiles_ok x c4 c' d4 d5 req e5 with ⟨_, hd5, _⟩ | ⟨hne, _⟩
    · rw [hdoc, hd5, hd4]
    · exact absurd hv hne
  · intro hv
    rcases setVarFiles_ok x c4 c' d4 d5 req e5 with ⟨he, _⟩ | ⟨_, varFiles, hloop, hd5⟩
    · exact absurd he hv
    · obtain ⟨es, hout, hall⟩ := varFilesLoop_ok x w _ c4 c' [] varFiles hw4 hloop
      rw [List.nil_append] at hout
      rw [hout] at hd5
      have hall' : List.Forall₂ (fun f entry => ∃ c0 c1 e, cmd.advances c0 ∧
          c0.parseField x f = (.ok e, c1) ∧ entry = varFileEntry w e)
          req.Params.VarFiles es := by
        refine hall.imp ?_
        rintro g entry ⟨k0, k1, e, hk, hp, he⟩
        exact ⟨k0, k1, e, advances_trans _ _ _ a14 hk, hp, he⟩
      refine ⟨w, es, hwc, by rw [hdoc, hd5, Doc.get_Set_same], hall', hall'.length_eq.symm, ?_⟩
      intro habs
      refine forall₂_right_all _ (fun b => hasLeadingSlash b = true) ?_ _ _ hall'
      rintro g entry ⟨_, _, e, _, _, he⟩
      rw [he]
      exact varFileEntry_abs w e habs

/-- C12 on the put test's request with the var files `/etc/a.tfvars` and
`env/b.tfvars` under the working directory `/tmp/build/put`. -/
theorem var_files_made_absolute_witness :
    sampleOut.injectExtraVars plainExtern [] varFilesRequest
      = (.ok varFilesDoc, varFilesOutAfter) ∧
    varFilesRequest.Params.VarFiles ≠ [] ∧
    ∃ (w : String) (entries : List String), sampleOut.args.get? 1 = some w ∧
      varFilesDoc.get "terraform_var_files" = some (.arr (entries.map JVal.str)) ∧
      entries.length = varFilesRequest.Params.VarFiles.length ∧
      hasLeadingSlash w = true ∧ ∀ entry ∈ entries, hasLeadingSlash entry = true := by
  obtain ⟨w, entries, hw, hget, _, hlen, habs⟩ :=
    (var_files_made_absolute plainExtern sampleOut varFilesOutAfter [] varFilesDoc
      varFilesRequest rfl).2.2 (by decide)
  have hw' : w = "/tmp/build/put" := by
    have h1 : sampleOut.args.get? 1 = some "/tmp/build/put" := rfl
    rw [h1] at hw
    exact (Option.some.inj hw).symm
  have hlead : hasLeadingSlash w = true := by rw [hw']; rfl
  exact ⟨rfl, by decide, w, entries, hw, hget, hlen, hlead, habs hlead⟩

/-! ## Version resolution (C13) -/

/-- An `Execute` whose steps before the external run all succeed continues with
`runAndRespond` on the command and the request `ansiblePlaybookCmd` returned. -/
theorem Execute_reaches_run (x : Extern) (w : World) (args files : List String)
    (env : Environment) (req req1 : OutRequest) (c1 c3 : Out) (dir : String) (a : Ansible)
    (henv : w.parseEnvironment = .ok env) (hdec : w.decode = .ok req)
    (hssh : Out.configureSSH x w { NewOut args with env := env } req = (.ok (), c1))
    (hdir : c1.args.get? 1 = some dir) (hch : w.chdir dir = none)
    (hcmd : c1.ansiblePlaybookCmd x req = (.ok a, req1, c3)) :
    Out.Execute x w args files = c3.runAndRespond x w a req1 files := by
  have harg : c1.arg1 = (.ok dir, c1) := by
    unfold Out.arg1
    rw [hdir]
  unfold Out.Execute
  simp only [henv, hdec, hssh, harg, hch, hcmd]

/-- The request `ansiblePlaybookCmd` hands back holds the post-fallback storage. -/
theorem ansiblePlaybookCmd_Storage (x : Extern) (cmd c' : Out) (req req' : OutRequest)
    (a : Ansible) (h : cmd.ansiblePlaybookCmd x req = (.ok a, req', c')) :
    req'.Source.Storage
      = (req.Source.AssignFallbackValues cmd.env.Team cmd.env.Pipeline).Storage := by
  obtain ⟨_, c1, w, a1, c4, doc, _, _, _, _, _, hreq⟩ :=
    ansiblePlaybookCmd_ok x cmd c' req req' a h
  rw [hreq, Envs_snd_Storage]
  rfl

/-- C13. When every step of `Execute` up to and including the external run
succeeds, the `version_id` artifact decides nothing but the version_id: with
the artifact read, the response Version holds the post-fallback Storage.Key and
the artifact's content; with the artifact missing or unreadable, it holds the
same key and the formatted current time. In both cases `Execute` returns nil
exactly when the response could be written to standard output. -/
theorem version_resolved (x : Extern) (w : World) (args files files1 : List String)
    (env : Environment) (req req1 : OutRequest) (c1 c3 : Out) (dir : String) (a a1 : Ansible)
    (henv : w.parseEnvironment = .ok env) (hdec : w.decode = .ok req)
    (hssh : Out.configureSSH x w { NewOut args with env := env } req = (.ok (), c1))
    (hdir : c1.args.get? 1 = some dir) (hch : w.chdir dir = none)
    (hcmd : c1.ansiblePlaybookCmd x req = (.ok a, req1, c3))
    (hrun : a.Run x w files = (.ok (), a1, files1)) :
    (∀ content, w.readVersionID = some content →
      (w.write (outResponseJSON
          { Key := (req.Source.AssignFallbackValues env.Team env.Pipeline).Storage.Key,
            VersionID := content }) = none →
        (Out.Execute x w args files).result = .ok () ∧
        (Out.Execute x w args files).stdout = [outResponseJSON
          { Key := (req.Source.AssignFallbackValues env.Team env.Pipeline).Storage.Key,
            VersionID := content }]) ∧
      (∀ e, w.write (outResponseJSON
          { Key := (req.Source.AssignFallbackValues env.Team env.Pipeline).Storage.Key,
            VersionID := content }) = some e →
        (Out.Execute x w args files).result = .err ("error marshalling response: " ++ e))) ∧
    (w.readVersionID = none →
      (w.write (outResponseJSON
          { Key := (req.Source.AssignFallbackValues env.Team env.Pipeline).Storage.Key,
            VersionID := w.now }) = none →
        (Out.Execute x w args files).result = .ok () ∧
        (Out.Execute x w args files).stdout = [outResponseJSON
          { Key := (req.Source.AssignFallbackValues env.Team env.Pipeline).Storage.Key,
            VersionID := w.now }]) ∧
      (∀ e, w.write (outResponseJSON
          { Key := (req.Source.AssignFallbackValues env.Team env.Pipeline).Storage.Key,
            VersionID := w.now }) = some e →
        (Out.Execute x w args files).result = .err ("error marshalling response: " ++ e))) := by
  have hexec := Execute_reaches_run x w args files env req req1 c1 c3 dir a henv hdec hssh
    hdir hch hcmd
  have henv1 : c1.env = env := by
    have ht := (configureSSH_trace x w { NewOut args with env := env } req).2.2.1
    rw [hssh] at ht
    exact ht
  have hkey : req1.Source.Storage.Key
      = (req.Source.AssignFallbackValues env.Team env.Pipeline).Storage.Key := by
    rw [ansiblePlaybookCmd_Storage x c1 c3 req req1 a hcmd, henv1]
  rw [hexec]
  unfold Out.runAndRespond
  simp only [hrun, hkey]
  refine ⟨?_, ?_⟩
  · intro content hc
    simp only [hc]
    refine ⟨?_, ?_⟩
    · intro hw
      simp only [hw]
      exact ⟨trivial, trivial⟩
    · intro e hw
      simp only [hw]
  · intro hc
    simp only [hc]
    refine ⟨?_, ?_⟩
    · intro hw
      simp only [hw]
      exact ⟨trivial, trivial⟩
    · intro e hw
      simp only [hw]

/-- C13 on the put test's basic request: without a `version_id` file the
response holds the fallback key and the formatted time, with the file it holds
the file's content; `Execute` returns nil both times. -/
theorem version_resolved_witness :
    ((Out.Execute plainExtern (sampleWorld sampleRequest) ["/out", "/tmp/build/put"] []).result
        = .ok () ∧
      (Out.Execute plainExtern (sampleWorld sampleRequest) ["/out", "/tmp/build/put"] []).stdout
        = [.obj [("version", .obj
              [("key", .str "sre/example-component/concourse-terraform-resource/version.tgz"),
               ("version_id", .str "2021-03-04T05:06:07.000000008Z")]),
            ("metadata", .null)]]) ∧
    ((Out.Execute plainExtern (artifactWorld sampleRequest "v42") ["/out", "/tmp/build/put"]
        []).result = .ok () ∧
      (Out.Execute plainExtern (artifactWorld sampleRequest "v42") ["/out", "/tmp/build/put"]
        []).stdout
        = [.obj [("version", .obj
              [("key", .str "sre/example-component/concourse-terraform-resource/version.tgz"),
               ("version_id", .str "v42")]),
            ("metadata", .null)]]) :=
  ⟨((version_resolved plainExtern (sampleWorld sampleRequest) ["/out", "/tmp/build/put"] [] []
      sampleEnv sampleRequest sampleRequestAfter sampleOut sampleOutAfter "/tmp/build/put"
      sampleAnsible sampleAnsiblePrepared rfl rfl rfl rfl rfl rfl rfl).2 rfl).1 rfl,
   ((version_resolved plainExtern (artifactWorld sampleRequest "v42") ["/out", "/tmp/build/put"]
      [] [] sampleEnv sampleRequest sampleRequestAfter sampleOut sampleOutAfter "/tmp/build/put"
      sampleAnsible sampleAnsiblePrepared rfl rfl rfl rfl rfl rfl rfl).1 "v42" rfl).1 rfl⟩

/-! ## Cleanup of the vars file (C14) -/

/-- On the paths where `prepareRun` succeeds, `Run` returns normally (nil or the
error of the child) and the temporary file it created is gone. -/
theorem Run_cleans_up_after_prepare (x : Extern) (w : World) (a : Ansible)
    (files : List String) (name : String) (ht : w.tempFile = .ok name)
    (hw : w.writeFile name = none) :
    (∀ msg, (a.Run x w files).1 ≠ .abort msg) ∧ name ∉ (a.Run x w files).2.2 := by
  unfold Ansible.Run Ansible.prepareRun
  simp only [ht, hw]
  refine ⟨?_, ?_⟩
  · intro msg
    split <;> simp
  · simp

/-- On the paths where `prepareRun` fails, `Run` does not return: the deferred
removal dereferences the nil file. When the file had been created and only the
write failed, the file is still there. -/
theorem Run_aborts_when_prepare_fails (x : Extern) (w : World) (a : Ansible)
    (files : List String) :
    (∀ e, w.tempFile = .err e →
      a.Run x w files = (.abort "nil pointer dereference", a, files)) ∧
    (∀ name e, w.tempFile = .ok name → w.writeFile name = some e →
      a.Run x w files = (.abort "nil pointer dereference", a, name :: files)) := by
  refine ⟨?_, ?_⟩
  · intro e ht
    unfold Ansible.Run Ansible.prepareRun
    simp only [ht]
  · intro name e ht hw
    unfold Ansible.Run Ansible.prepareRun
    simp only [ht, hw]

/-- C14 evaluated on the four exit paths of `Run` for the put test's command,
starting with no temporary file. After a successful child and after a failed
child `Run` returns and the vars file is gone. When the vars file cannot be
created `Run` panics on the nil file instead of returning the error; when it is
created but cannot be written `Run` panics as well and the file stays. -/
theorem run_exit_paths :
    Ansible.Run plainExtern (sampleWorld sampleRequest) sampleAnsible []
      = (.ok (), sampleAnsiblePrepared, []) ∧
    Ansible.Run plainExtern failedChildWorld sampleAnsible []
      = (.err "exit status 2", sampleAnsiblePrepared, []) ∧
    noTempWorld.tempFile = .err "permission denied" ∧
    Ansible.Run plainExtern noTempWorld sampleAnsible []
      = (.abort "nil pointer dereference", sampleAnsible, []) ∧
    noWriteWorld.tempFile = .ok "/tmp/vars012345" ∧
    noWriteWorld.writeFile "/tmp/vars012345" = some "no space left on device" ∧
    Ansible.Run plainExtern noWriteWorld sampleAnsible []
      = (.abort "nil pointer dereference", sampleAnsible, ["/tmp/vars012345"]) :=
  ⟨rfl, rfl, rfl, rfl, rfl, rfl, rfl⟩

/-! ## Source validation (C15) -/

theorem Storage_Validate_none (s : Storage) :
    s.Validate = none ↔
      s.AWSAccessKeyID ≠ "" ∧ s.AWSSecretAccessKey ≠ "" ∧ s.Bucket ≠ "" ∧ s.Region ≠ "" := by
  unfold Storage.Validate
  by_cases h1 : s.AWSAccessKeyID = "" <;> by_cases h2 : s.AWSSecretAccessKey = "" <;>
    by_cases h3 : s.Bucket = "" <;> by_cases h4 : s.Region = "" <;> simp [h1, h2, h3, h4]

theorem VaultSource_Validate_none (s : VaultSource) :
    s.Validate = none ↔ s.Addr ≠ "" ∧ s.RoleID ≠ "" ∧ s.SecretID ≠ "" := by
  unfold VaultSource.Validate
  by_cases h1 : s.Addr = "" <;> by_cases h2 : s.RoleID = "" <;>
    by_cases h3 : s.SecretID = "" <;> simp [h1, h2, h3]

/-- C15, as the code has it. `Source.Validate` succeeds exactly when the four
storage sub-fields it checks (access key, secret, bucket, region) and the three
vault sub-fields (address, role id, secret id) are all non-empty; the storage
object key is not looked at. -/
theorem source_validate_iff (s : Source) :
    s.Validate = none ↔
      s.Storage.AWSAccessKeyID ≠ "" ∧ s.Storage.AWSSecretAccessKey ≠ "" ∧
      s.Storage.Bucket ≠ "" ∧ s.Storage.Region ≠ "" ∧
      s.Vault.Addr ≠ "" ∧ s.Vault.RoleID ≠ "" ∧ s.Vault.SecretID ≠ "" := by
  unfold Source.Validate
  cases hv : s.Vault.Validate with
  | some e =>
    have hn : ¬ (s.Vault.Addr ≠ "" ∧ s.Vault.RoleID ≠ "" ∧ s.Vault.SecretID ≠ "") := by
      intro h
      rw [(VaultSource_Validate_none s.Vault).mpr h] at hv
      cases hv
    constructor
    · intro h
      simp at h
    · rintro ⟨_, _, _, _, h5, h6, h7⟩
      exact absurd ⟨h5, h6, h7⟩ hn
  | none =>
    have hvault := (VaultSource_Validate_none s.Vault).mp hv
    cases hs : s.Storage.Validate with
    | some e =>
      have hn : ¬ (s.Storage.AWSAccessKeyID ≠ "" ∧ s.Storage.AWSSecretAccessKey ≠ "" ∧
          s.Storage.Bucket ≠ "" ∧ s.Storage.Region ≠ "") := by
        intro h
        rw [(Storage_Validate_none s.Storage).mpr h] at hs
        cases hs
      constructor
      · intro h
        simp at h
      · rintro ⟨h1, h2, h3, h4, _⟩
        exact absurd ⟨h1, h2, h3, h4⟩ hn
    | none =>
      have hst := (Storage_Validate_none s.Storage).mp hs
      constructor
      · intro _
        exact ⟨hst.1, hst.2.1, hst.2.2.1, hst.2.2.2, hvault.1, hvault.2.1, hvault.2.2⟩
      · intro _
        rfl

/-- C15 on the source of the put test's "storage key config" case, and on the
same source with its bucket emptied. -/
theorem source_validate_iff_witness :
    keyedSource.Validate = none ∧
    ({ keyedSource with Storage := { keyedSource.Storage with Bucket := "" } } : Source).Validate
      ≠ none :=
  ⟨(source_validate_iff keyedSource).mpr
      ⟨by decide, by decide, by decide, by decide, by decide, by decide, by decide⟩,
   fun h => ((source_validate_iff
      { keyedSource with Storage := { keyedSource.Storage with Bucket := "" } }).mp h).2.2.1 rfl⟩

/-- C15 as stated fails on the put test's source: its storage object key is
empty and it passes `Source.Validate`. -/
theorem empty_storage_key_validates_counterexample :
    sampleSource.Storage.Key = "" ∧ sampleSource.Validate = none ∧
    ¬ (sampleSource.Validate = none → sampleSource.Storage.Key ≠ "") := by
  refine ⟨rfl, rfl, ?_⟩
  intro h
  exact h rfl rfl

/-! ## The private key and the ssh block (C16) -/

theorem grows_refl (P : Event → Prop) (c : Out) : c.grows P c :=
  ⟨[], by simp, by simp⟩

theorem grows_trans (P : Event → Prop) (a b c : Out) (h1 : a.grows P b) (h2 : b.grows P c) :
    a.grows P c := by
  obtain ⟨evs1, v1, u1⟩ := h1
  obtain ⟨evs2, v2, u2⟩ := h2
  refine ⟨evs1 ++ evs2, by rw [v2, v1, List.append_assoc], ?_⟩
  intro e he
  rcases List.mem_append.mp he with he | he
  · exact u1 e he
  · exact u2 e he

theorem andThen_grows {α β : Type} (P : Event → Prop) (c : Out) (r : Result α × Out)
    (f : α → Out → Result β × Out) (h1 : c.grows P r.2)
    (h2 : ∀ a c0, c.grows P c0 → c.grows P (f a c0).2) : c.grows P (andThen r f).2 := by
  obtain ⟨res, c0⟩ := r
  cases res with
  | ok a => exact h2 a c0 h1
  | err e => exact h1
  | abort e => exact h1

theorem parseField_grows (P : Event → Prop) (hf : ∀ i t, P (Event.field i t)) (x : Extern)
    (c : Out) (text : String) : c.grows P (c.parseField x text).2 := by
  rw [parseField_snd]
  refine ⟨[Event.field c.currentInput text], rfl, ?_⟩
  intro e he
  rw [List.mem_singleton.mp he]
  exact hf _ _

theorem parseMapping_grows (P : Event → Prop) (hm : ∀ i t, P (Event.mapping i t))
    (x : Extern) (c : Out) (text : String) : c.grows P (c.parseMapping x text).2 := by
  rw [parseMapping_snd]
  refine ⟨[Event.mapping c.currentInput text], rfl, ?_⟩
  intro e he
  rw [List.mem_singleton.mp he]
  exact hm _ _

theorem arg1_grows (P : Event → Prop) (c : Out) : c.grows P c.arg1.2 := by
  rw [arg1_snd]
  exact grows_refl P c

theorem varFilesLoop_grows (P : Event → Prop) (hf : ∀ i t, P (Event.field i t)) (x : Extern)
    (fs : List String) :
    ∀ (c : Out) (acc : List String), c.grows P (Out.varFilesLoop x c fs acc).2 := by
  induction fs with
  | nil =>
    intro c acc
    exact grows_refl P c
  | cons f rest ih =>
    intro c acc
    unfold Out.varFilesLoop
    apply andThen_grows
    · rw [wrapErr_snd]
      exact parseField_grows P hf x c _
    · intro varFile c0 h
      dsimp only
      split
      · apply andThen_grows
        · exact grows_trans _ _ _ _ h (arg1_grows P c0)
        · intro w c1 h1
          exact grows_trans _ _ _ _ h1 (ih c1 _)
      · exact grows_trans _ _ _ _ h (ih c0 _)

theorem injectExtraVars_grows (P : Event → Prop) (hf : ∀ i t, P (Event.field i t))
    (hm : ∀ i t, P (Event.mapping i t)) (x : Extern) (c : Out) (d : Doc) (req : OutRequest) :
    c.grows P (c.injectExtraVars x d req).2 := by
  have hrel : ∀ (k : Out) (d0 : Doc), k.grows P (k.setReleaseVersion x d0 req).2 := by
    intro k d0
    unfold Out.setReleaseVersion
    split
    · apply andThen_grows
      · rw [wrapErr_snd]
        exact parseField_grows P hf x k _
      · intro a c0 h
        exact h
    · exact grows_refl P k
  have hvars : ∀ (k : Out) (d0 : Doc), k.grows P (k.setTerraformVars x d0 req).2 := by
    intro k d0
    unfold Out.setTerraformVars
    split
    · apply andThen_grows
      · rw [wrapErr_snd]
        exact parseMapping_grows P hm x k _
      · intro a c0 h
        dsimp only
        split
        · split <;> exact h
        · exact h
    · exact grows_refl P k
  have hfiles : ∀ (k : Out) (d0 : Doc), k.grows P (k.setVarFiles x d0 req).2 := by
    intro k d0
    unfold Out.setVarFiles
    split
    · apply andThen_grows
      · exact varFilesLoop_grows P hf x _ k _
      · intro a c0 h
        exact h
    · exact grows_refl P k
  unfold Out.injectExtraVars
  apply andThen_grows
  · exact parseField_grows P hf x c _
  · intro context c1 h1
    dsimp only
    apply andThen_grows
    · rw [wrapErr_snd]
      exact grows_trans _ _ _ _ h1 (parseField_grows P hf x c1 _)
    · intro workspace c2 h2
      apply andThen_grows
      · exact grows_trans _ _ _ _ h2 (hrel c2 _)
      · intro d3 c3 h3
        apply andThen_grows
        · exact grows_trans _ _ _ _ h3 (hvars c3 _)
        · intro d4 c4 h4
          apply andThen_grows
          · exact grows_trans _ _ _ _ h4 (hfiles c4 _)
          · intro d5 c5 h5
            apply andThen_grows
            · exact grows_trans _ _ _ _ h5 (arg1_grows P c5)
            · intro w c6 h6
              exact h6

theorem mergeEnvs_grows (P : Event → Prop) (hf : ∀ i t, P (Event.field i t)) (x : Extern)
    (envs : GoMap) : ∀ (c : Out) (a : Ansible), c.grows P (Out.mergeEnvs x c envs a).2 := by
  induction envs with
  | nil =>
    intro c a
    exact grows_refl P c
  | cons kv rest ih =>
    intro c a
    obtain ⟨k, v⟩ := kv
    unfold Out.mergeEnvs
    apply andThen_grows
    · rw [wrapErr_snd]
      exact parseField_grows P hf x c _
    · intro parsed c0 h
      exact grows_trans _ _ _ _ h (ih c0 _)

theorem buildCommand_grows (P : Event → Prop) (hf : ∀ i t, P (Event.field i t))
    (hm : ∀ i t, P (Event.mapping i t)) (hn : P Event.newAnsible) (x : Extern) (cmd : Out)
    (req : OutRequest) : cmd.grows P (cmd.buildCommand x req).2.2 := by
  unfold Out.buildCommand
  split
  · rename_i e c2 h
    have hc : c2 = cmd := by rw [← arg1_snd cmd, h]
    rw [hc]
    exact grows_refl P cmd
  · rename_i e c2 h
    have hc : c2 = cmd := by rw [← arg1_snd cmd, h]
    rw [hc]
    exact grows_refl P cmd
  · rename_i w c2 h
    have hc : c2 = cmd := by rw [← arg1_snd cmd, h]
    rw [hc]
    dsimp only
    have h3 : cmd.grows P { cmd with evals := cmd.evals ++ [Event.newAnsible] } := by
      refine ⟨[Event.newAnsible], rfl, ?_⟩
      intro e he
      rw [List.mem_singleton.mp he]
      exact hn
    refine grows_trans _ _ _ _ h3 ?_
    apply andThen_grows
    · exact mergeEnvs_grows P hf x _ _ _
    · intro a1 c4 h4
      apply andThen_grows
      · rw [wrapErr_snd]
        exact grows_trans _ _ _ _ h4 (injectExtraVars_grows P hf hm x c4 _ _)
      · intro d c5 h5
        exact h5

/-- The ghost record after `ansiblePlaybookCmd` is the one before it followed by
evaluator calls and at most one `NewAnsible`. -/
theorem ansiblePlaybookCmd_grows (P : Event → Prop) (hf : ∀ i t, P (Event.field i t))
    (hm : ∀ i t, P (Event.mapping i t)) (hn : P Event.newAnsible) (x : Extern) (cmd : Out)
    (req : OutRequest) : cmd.grows P (cmd.ansiblePlaybookCmd x req).2.2 := by
  unfold Out.ansiblePlaybookCmd
  split
  · exact grows_refl P cmd
  · dsimp only
    have one : ∀ m : Option Message, cmd.grows P
        { cmd with
          evals := cmd.evals ++ [Event.mapping cmd.currentInput
            (req.assignFallback cmd.env.Team cmd.env.Pipeline).Params.InputMapping],
          input := m } := by
      intro m
      refine ⟨[Event.mapping cmd.currentInput _], rfl, ?_⟩
      intro e he
      rw [List.mem_singleton.mp he]
      exact hm _ _
    rcases computeInput_cases x cmd (req.assignFallback cmd.env.Team cmd.env.Pipeline) with
      ⟨_, hc⟩ | ⟨_, ⟨m, _, hc⟩ | ⟨r, hr, hc⟩⟩
    · rw [hc]
      exact buildCommand_grows P hf hm hn x cmd _
    · rw [hc]
      exact grows_trans _ _ _ _ (one (some m)) (buildCommand_grows P hf hm hn x _ _)
    · rw [hc]
      cases r with
      | ok u => exact absurd rfl (hr u)
      | err e => exact one none
      | abort e => exact one none

theorem PrivateKey_flag (r : OutRequest) :
    r.PrivateKey.2 = true ↔ (r.Params.PrivateKey ≠ "" ∨ r.Source.PrivateKey ≠ "") := by
  unfold OutRequest.PrivateKey
  by_cases hp : r.Params.PrivateKey = "" <;> by_cases hs : r.Source.PrivateKey = "" <;>
    simp [hp, hs]

theorem configureSSH_no_key (x : Extern) (w : World) (cmd : Out) (r : OutRequest)
    (h : r.PrivateKey.2 = false) : cmd.configureSSH x w r = (.ok (), cmd) := by
  unfold Out.configureSSH
  simp [h]

theorem configureSSH_with_key (x : Extern) (w : World) (cmd : Out) (r : OutRequest)
    (f : Nat → Message → String) (h : r.PrivateKey.2 = true)
    (hf : x.NewField r.PrivateKey.1 = .ok f) :
    (cmd.configureSSH x w r).2.evals
      = cmd.evals ++ [Event.field cmd.currentInput r.PrivateKey.1,
          Event.setupSSH (f cmd.evals.length cmd.currentInput)] := by
  have hp : cmd.parseField x r.PrivateKey.1
      = (.ok (f cmd.evals.length cmd.currentInput),
         { cmd with evals := cmd.evals ++ [Event.field cmd.currentInput r.PrivateKey.1] }) := by
    unfold Out.parseField
    simp only [hf]
  unfold Out.configureSSH
  rw [if_pos h, hp]
  have hw : wrapErr "error parsing private key: "
      ((Result.ok (f cmd.evals.length cmd.currentInput) : Result String),
        ({ cmd with evals := cmd.evals ++ [Event.field cmd.currentInput r.PrivateKey.1] } : Out))
      = (Result.ok (f cmd.evals.length cmd.currentInput),
        { cmd with evals := cmd.evals ++ [Event.field cmd.currentInput r.PrivateKey.1] }) := rfl
  rw [hw]
  simp only [andThen, wrapErr_snd, List.append_assoc, List.singleton_append]

/-- C16. `OutRequest.PrivateKey` returns the params key when it is non-empty,
else the source key when that is non-empty, else the empty string with the flag
false; so the flag is true exactly when one of the two keys is non-empty, and
the key returned with a true flag is non-empty. The ssh block of `Execute` is
gated by the flag: with the flag false it does nothing and `Execute` never calls
`setupSSH`; with the flag true it evaluates the key field first and, when that
field compiles, calls `setupSSH` with the evaluated key (given that the
environment and the request were read). -/
theorem private_key_gate (x : Extern) (w : World) (cmd : Out) (r : OutRequest) :
    (r.Params.PrivateKey ≠ "" → r.PrivateKey = (r.Params.PrivateKey, true)) ∧
    (r.Params.PrivateKey = "" → r.Source.PrivateKey ≠ "" →
      r.PrivateKey = (r.Source.PrivateKey, true)) ∧
    (r.Params.PrivateKey = "" → r.Source.PrivateKey = "" → r.PrivateKey = ("", false)) ∧
    (r.PrivateKey.2 = true ↔ (r.Params.PrivateKey ≠ "" ∨ r.Source.PrivateKey ≠ "")) ∧
    (r.PrivateKey.2 = true → r.PrivateKey.1 ≠ "") ∧
    (r.PrivateKey.2 = false → cmd.configureSSH x w r = (.ok (), cmd)) ∧
    (r.PrivateKey.2 = true →
      ∃ rest, (cmd.configureSSH x w r).2.evals
        = cmd.evals ++ Event.field cmd.currentInput r.PrivateKey.1 :: rest) ∧
    (∀ args files, w.decode = .ok r → r.PrivateKey.2 = false →
      ∀ e ∈ (Out.Execute x w args files).cmd.evals, Event.notSSH e) ∧
    (∀ args files env, w.parseEnvironment = .ok env → w.decode = .ok r →
      r.PrivateKey.2 = true →
      (∃ tail, (Out.Execute x w args files).cmd.evals
        = Event.field emptyMessage r.PrivateKey.1 :: tail) ∧
      ∀ f, x.NewField r.PrivateKey.1 = .ok f →
        Event.setupSSH (f 0 emptyMessage) ∈ (Out.Execute x w args files).cmd.evals) := by
  have hP : ∀ (c : Out), c.grows Event.notSSH (c.ansiblePlaybookCmd x r).2.2 := fun c =>
    ansiblePlaybookCmd_grows Event.notSSH (fun _ _ => trivial) (fun _ _ => trivial) trivial x c r
  have hAll : ∀ (c : Out), c.grows (fun _ => True) (c.ansiblePlaybookCmd x r).2.2 := fun c =>
    ansiblePlaybookCmd_grows (fun _ => True) (fun _ _ => trivial) (fun _ _ => trivial)
      trivial x c r
  refine ⟨?_, ?_, ?_, PrivateKey_flag r, ?_, configureSSH_no_key x w cmd r, ?_, ?_, ?_⟩
  · intro h
    unfold OutRequest.PrivateKey
    simp [h]
  · intro h1 h2
    unfold OutRequest.PrivateKey
    simp [h1, h2]
  · intro h1 h2
    unfold OutRequest.PrivateKey
    simp [h1, h2]
  · unfold OutRequest.PrivateKey
    by_cases hp : r.Params.PrivateKey = "" <;> by_cases hs : r.Source.PrivateKey = "" <;>
      simp [hp, hs]
  · intro h
    obtain ⟨_, _, _, pre, hpre, _, hkey, _⟩ := configureSSH_trace x w cmd r
    obtain ⟨rest, hrest⟩ := hkey h
    exact ⟨rest, by rw [hpre, hrest]⟩
  · intro args files hdec hflag e he
    rcases Execute_evals x w args files r hdec with ⟨_, h0⟩ | ⟨env, _, hcases⟩
    · rw [h0] at he
      simp at he
    · have hc := configureSSH_no_key x w { NewOut args with env := env } r hflag
      rw [hc] at hcases
      obtain ⟨evs, hev, huse⟩ := hP { NewOut args with env := env }
      have hev' : (Out.ansiblePlaybookCmd x { NewOut args with env := env } r).2.2.evals
          = evs := by
        rw [hev]
        rfl
      rcases hcases with hE | hE | ⟨_, hE⟩
      · rw [hE] at he
        exact absurd he (by simp [NewOut])
      · rw [hE, hev'] at he
        exact huse e he
      · rw [hE, hev'] at he
        rcases List.mem_append.mp he with h | h
        · exact huse e h
        · rw [List.mem_singleton.mp h]
          trivial
  · intro args files env henv hdec hflag
    obtain ⟨_, _, _, pre, hpre, _, hkey, _⟩ :=
      configureSSH_trace x w { NewOut args with env := env } r
    obtain ⟨rest, hrest⟩ := hkey hflag
    have hc1 : (Out.configureSSH x w { NewOut args with env := env } r).2.evals
        = Event.field emptyMessage r.PrivateKey.1 :: rest := by
      rw [hpre, hrest]
      rfl
    obtain ⟨evs, hev, _⟩ := hAll (Out.configureSSH x w { NewOut args with env := env } r).2
    rw [hc1] at hev
    have shape : ∃ l, (Out.Execute x w args files).cmd.evals
        = (Event.field emptyMessage r.PrivateKey.1 :: rest) ++ l := by
      rcases Execute_evals x w args files r hdec with ⟨hne, _⟩ | ⟨env', henv', hcases⟩
      · exact absurd henv (hne env)
      · rw [henv] at henv'
        have hee : env' = env := (Result.ok.inj henv').symm
        rw [hee] at hcases
        rcases hcases with hE | hE | ⟨_, hE⟩
        · exact ⟨[], by rw [hE, hc1]; simp⟩
        · exact ⟨evs, by rw [hE, hev]⟩
        · exact ⟨evs ++ [Event.run], by rw [hE, hev, List.append_assoc]⟩
    obtain ⟨l, hl⟩ := shape
    refine ⟨⟨rest ++ l, by rw [hl]; rfl⟩, ?_⟩
    intro f hf
    have hk := configureSSH_with_key x w { NewOut args with env := env } r f hflag hf
    rw [hc1] at hk
    have hmem : Event.setupSSH (f 0 emptyMessage) ∈ Event.field emptyMessage r.PrivateKey.1 :: rest := by
      rw [hk]
      simp [NewOut, Out.currentInput]
    rw [hl]
    exact List.mem_append_left _ hmem

/-- C16 on the put test's request with a private key in the source only: the
source key is returned with a true flag, `Execute` evaluates it first and calls
`setupSSH` with it; with no key at all the block does nothing. -/
theorem private_key_gate_witness :
    sourceKeyRequest.Params.PrivateKey = "" ∧ sourceKeyRequest.Source.PrivateKey ≠ "" ∧
    sourceKeyRequest.PrivateKey = ("source-key", true) ∧
    Event.setupSSH "source-key" ∈
      (Out.Execute plainExtern (sampleWorld sourceKeyRequest) ["/out", "/tmp/build/put"]
        []).cmd.evals ∧
    sampleRequest.PrivateKey = ("", false) ∧
    sampleOut.configureSSH plainExtern (sampleWorld sampleRequest) sampleRequest
      = (.ok (), sampleOut) := by
  have h := private_key_gate plainExtern (sampleWorld sourceKeyRequest) sampleOut
    sourceKeyRequest
  have h0 := private_key_gate plainExtern (sampleWorld sampleRequest) sampleOut sampleRequest
  exact ⟨rfl, by decide, h.2.1 rfl (by decide),
    (h.2.2.2.2.2.2.2.2 ["/out", "/tmp/build/put"] [] sampleEnv rfl rfl rfl).2
      (fun _ _ => "source-key") rfl,
    h0.2.2.1 rfl rfl, h0.2.2.2.2.2.1 rfl⟩

/-! ## Combined env vars (C17) -/

theorem GoMap.get_set_same (m : GoMap) (k v : String) : GoMap.get (GoMap.set m k v) k = some v := by
  induction m with
  | nil => simp [GoMap.set, GoMap.get]
  | cons kv rest ih =>
    obtain ⟨k0, v0⟩ := kv
    by_cases h : k0 = k
    · simp [GoMap.set, GoMap.get, h]
    · simp [GoMap.set, GoMap.get, h, ih]

theorem GoMap.get_set_ne (m : GoMap) (k v k' : String) (h : k' ≠ k) :
    GoMap.get (GoMap.set m k v) k' = GoMap.get m k' := by
  have hne : ¬ k = k' := fun e => h e.symm
  induction m with
  | nil => simp [GoMap.set, GoMap.get, hne]
  | cons kv rest ih =>
    obtain ⟨k0, v0⟩ := kv
    by_cases h0 : k0 = k
    · subst h0
      simp [GoMap.set, GoMap.get, hne]
    · by_cases h1 : k0 = k'
      · subst h1
        simp [GoMap.set, GoMap.get, h0]
      · simp [GoMap.set, GoMap.get, h0, h1, ih]

theorem GoMap.get_none_of_not_key (m : GoMap) (k : String) (h : k ∉ m.map Prod.fst) :
    GoMap.get m k = none := by
  induction m with
  | nil => rfl
  | cons kv rest ih =>
    obtain ⟨k0, v0⟩ := kv
    simp only [List.map_cons, List.mem_cons, not_or] at h
    have hne : ¬ k0 = k := fun e => h.1 e.symm
    simp only [GoMap.get, if_neg hne]
    exact ih h.2

theorem GoMap.key_of_get_some (m : GoMap) (k v : String) (h : GoMap.get m k = some v) :
    (k, v) ∈ m := by
  induction m with
  | nil => simp [GoMap.get] at h
  | cons kv rest ih =>
    obtain ⟨k0, v0⟩ := kv
    by_cases h0 : k0 = k
    · simp only [GoMap.get, if_pos h0, Option.some.injEq] at h
      rw [h0, h]
      exact List.mem_cons_self _ _
    · simp only [GoMap.get, if_neg h0] at h
      exact List.mem_cons_of_mem _ (ih h)

theorem GoMap.get_of_mem (m : GoMap) (hn : m.keysNodup) (k v : String) (h : (k, v) ∈ m) :
    GoMap.get m k = some v := by
  induction m with
  | nil => simp at h
  | cons kv rest ih =>
    obtain ⟨k0, v0⟩ := kv
    unfold GoMap.keysNodup at hn
    simp only [List.map_cons, List.nodup_cons] at hn
    rcases List.mem_cons.mp h with h | h
    · simp only [Prod.mk.injEq] at h
      simp [GoMap.get, h.1, h.2]
    · have hk : k ∈ rest.map Prod.fst := List.mem_map_of_mem Prod.fst h
      have hne : ¬ k0 = k := by
        intro e
        rw [e] at hn
        exact hn.1 hk
      simp only [GoMap.get, if_neg hne]
      exact ih hn.2 h

/-- Two Go maps with the same entries in different orders answer every lookup
alike. -/
theorem GoMap.get_perm (m m' : GoMap) (hn : m.keysNodup) (hp : m'.Perm m) (k : String) :
    GoMap.get m' k = GoMap.get m k := by
  have hn' : m'.keysNodup := by
    unfold GoMap.keysNodup at hn ⊢
    exact ((hp.map Prod.fst).nodup_iff).mpr hn
  cases h : GoMap.get m k with
  | some v =>
    exact GoMap.get_of_mem m' hn' k v (hp.mem_iff.mpr (GoMap.key_of_get_some m k v h))
  | none =>
    cases h' : GoMap.get m' k with
    | none => rfl
    | some v' =>
      have hm := GoMap.get_of_mem m hn k v' (hp.mem_iff.mp (GoMap.key_of_get_some m' k v' h'))
      rw [h] at hm
      cases hm

/-- Writing the entries of `l` one after the other into `m`: a key of `l` ends
with its value in `l`, any other key keeps its value in `m`. -/
theorem GoMap.get_foldl_set (l : GoMap) (hn : l.keysNodup) (k : String) :
    ∀ m : GoMap, GoMap.get (l.foldl (fun acc kv => GoMap.set acc kv.1 kv.2) m) k
      = match GoMap.get l k with
        | some v => some v
        | none => GoMap.get m k := by
  induction l with
  | nil =>
    intro m
    rfl
  | cons kv rest ih =>
    intro m
    obtain ⟨k0, v0⟩ := kv
    unfold GoMap.keysNodup at hn
    simp only [List.map_cons, List.nodup_cons] at hn
    simp only [List.foldl_cons]
    rw [ih hn.2]
    by_cases h0 : k0 = k
    · subst h0
      rw [GoMap.get_none_of_not_key rest k0 hn.1]
      simp [GoMap.get, GoMap.get_set_same]
    · have hne : k ≠ k0 := fun e => h0 e.symm
      simp only [GoMap.get, if_neg h0]
      rw [GoMap.get_set_ne _ _ _ _ hne]

/-- The lookup in the map `OutRequest.Envs` returns: the params value for a key
of Params.Envs, the source value for any other key; a nil map counts as empty. -/
theorem Envs_get (x : Extern) (r : OutRequest) (hn : (GoMap.ofNil r.Params.Envs).keysNodup)
    (k : String) :
    GoMap.get (r.Envs x.rangeOrder).1 k
      = match GoMap.get (GoMap.ofNil r.Params.Envs) k with
        | some v => some v
        | none => GoMap.get (GoMap.ofNil r.Source.Envs) k := by
  have hfst : (r.Envs x.rangeOrder).1
      = match r.Params.Envs with
        | none => GoMap.ofNil r.Source.Envs
        | some p =>
          if p.length > 0 then
            (x.rangeOrder p).foldl (fun m kv => GoMap.set m kv.1 kv.2) (GoMap.ofNil r.Source.Envs)
          else GoMap.ofNil r.Source.Envs := by
    unfold OutRequest.Envs GoMap.ofNil
    cases r.Source.Envs <;> cases r.Params.Envs <;> rfl
  rw [hfst]
  cases hp : r.Params.Envs with
  | none => simp [GoMap.ofNil, GoMap.get]
  | some p =>
    rw [hp] at hn
    simp only [GoMap.ofNil] at hn ⊢
    by_cases hl : p.length > 0
    · simp only [hl, if_true]
      have hn' : (x.rangeOrder p).keysNodup := by
        unfold GoMap.keysNodup at hn ⊢
        exact (((x.rangeOrder_perm p).map Prod.fst).nodup_iff).mpr hn
      rw [GoMap.get_foldl_set _ hn' k, GoMap.get_perm p _ hn (x.rangeOrder_perm p) k]
    · have hnil : p = [] := List.length_eq_zero.mp (by omega)
      simp [hnil, GoMap.get]

/-- C17. For a request whose Params.Envs has pairwise distinct keys (as every
Go map has), in the map `OutRequest.Envs` returns: a key is present exactly when
it is a key of Source.Envs or of Params.Envs; a key of Params.Envs holds its
params value; a key of Source.Envs only holds its source value. A nil map on
either side counts as the empty map, and with both nil the result is the empty
map. -/
theorem envs_combined (x : Extern) (r : OutRequest)
    (hn : (GoMap.ofNil r.Params.Envs).keysNodup) :
    (∀ k, GoMap.get (r.Envs x.rangeOrder).1 k ≠ none ↔
      (GoMap.get (GoMap.ofNil r.Source.Envs) k ≠ none ∨
        GoMap.get (GoMap.ofNil r.Params.Envs) k ≠ none)) ∧
    (∀ k v, GoMap.get (GoMap.ofNil r.Params.Envs) k = some v →
      GoMap.get (r.Envs x.rangeOrder).1 k = some v) ∧
    (∀ k, GoMap.get (GoMap.ofNil r.Params.Envs) k = none →
      GoMap.get (r.Envs x.rangeOrder).1 k = GoMap.get (GoMap.ofNil r.Source.Envs) k) ∧
    (r.Source.Envs = none → r.Params.Envs = none → (r.Envs x.rangeOrder).1 = []) := by
  refine ⟨?_, ?_, ?_, ?_⟩
  · intro k
    rw [Envs_get x r hn k]
    cases hp : GoMap.get (GoMap.ofNil r.Params.Envs) k with
    | none => simp
    | some v => simp
  · intro k v hp
    rw [Envs_get x r hn k, hp]
  · intro k hp
    rw [Envs_get x r hn k, hp]
  · intro hs hp
    unfold OutRequest.Envs
    rw [hs, hp]

/-- C17 on a request whose source and params env maps overlap on `B`, and on a
request whose source map is nil. -/
theorem envs_combined_witness :
    (GoMap.ofNil envsRequest.Params.Envs).keysNodup ∧
    GoMap.get (envsRequest.Envs plainExtern.rangeOrder).1 "A" = some "1" ∧
    GoMap.get (envsRequest.Envs plainExtern.rangeOrder).1 "B" = some "3" ∧
    GoMap.get (envsRequest.Envs plainExtern.rangeOrder).1 "C" = some "4" ∧
    paramsEnvsRequest.Source.Envs = none ∧
    GoMap.get (paramsEnvsRequest.Envs plainExtern.rangeOrder).1 "B" = some "3" := by
  have hn : (GoMap.ofNil envsRequest.Params.Envs).keysNodup := by
    unfold GoMap.keysNodup
    decide
  have hn' : (GoMap.ofNil paramsEnvsRequest.Params.Envs).keysNodup := by
    unfold GoMap.keysNodup
    decide
  have h := envs_combined plainExtern envsRequest hn
  have h' := envs_combined plainExtern paramsEnvsRequest hn'
  exact ⟨hn, (h.2.2.1 "A" rfl).trans rfl, h.2.1 "B" "3" rfl, h.2.1 "C" "4" rfl, rfl,
    h'.2.1 "B" "3" rfl⟩

end ConcourseTerraform
